import Mathlib

/-!
Verification of the `perlin` repository (2-D Perlin-style procedural noise)
against its natural-language specification.

The repository contains three historical variants of the same algorithm:
* `perlin/_core.py` + `perlin/_render.py` (current package; `perlin/_hash.py`
  is not present in the sources, its gradient contract is modelled from the
  spec, §4.1–§4.2, whose constants match the sibling `src/hash.py`),
* `src/perlin.py` + `src/hash.py` (middle variant),
* `perlin.py` (top-level, oldest variant).

Python semantics used throughout the embedding:
* Python `int` is `ℤ`, `n & 0xFFFFFFFF` on `ℤ` is `n % 2^32` (two's
  complement reduction), `int(x)` on a float truncates toward zero;
* float arithmetic is idealised as exact real arithmetic (sample
  coordinates are rationals, noise values are reals);
* a raised exception is an `Except.error` / `Option.none` value.
-/

namespace PerlinSpec

/-! ## Byte-level helpers (Python `int.to_bytes` / `int.from_bytes`) -/

/-- The 4 little-endian bytes of a 32-bit value, as produced by
`int.to_bytes(n, length=4, byteorder="little")`. -/
def toBytesLE4 (n : ℕ) : List ℕ :=
  [n % 256, n / 256 % 256, n / 65536 % 256, n / 16777216 % 256]

/-- The 8 little-endian bytes of a 64-bit value (MD5 length field). -/
def toBytesLE8 (n : ℕ) : List ℕ :=
  [n % 256, n / 256 % 256, n / 65536 % 256, n / 16777216 % 256,
   n / 4294967296 % 256, n / 1099511627776 % 256,
   n / 281474976710656 % 256, n / 72057594037927936 % 256]

/-- Big-endian byte-list to integer, as `int.from_bytes(bs)` (default
`byteorder="big"`). -/
def fromBytesBE (bs : List ℕ) : ℕ :=
  bs.foldl (fun acc b => acc * 256 + b) 0

/-! ## MD5 (semantics of Python's `hashlib.md5`, RFC 1321) -/

/-- 32-bit left rotation. -/
def rotl32 (x n : ℕ) : ℕ :=
  ((x <<< n) ||| (x >>> (32 - n))) % 4294967296

def md5F (b c d : ℕ) : ℕ := (b &&& c) ||| ((4294967295 ^^^ b) &&& d)

def md5G (b c d : ℕ) : ℕ := (d &&& b) ||| ((4294967295 ^^^ d) &&& c)

def md5H (b c d : ℕ) : ℕ := b ^^^ c ^^^ d

def md5I (b c d : ℕ) : ℕ := c ^^^ (b ||| (4294967295 ^^^ d))

/-- The 64 MD5 sine-derived constants `⌊|sin(i+1)|·2^32⌋`. -/
def md5K : List ℕ :=
  [0xD76AA478, 0xE8C7B756, 0x242070DB, 0xC1BDCEEE, 0xF57C0FAF, 0x4787C62A, 0xA8304613, 0xFD469501,
   0x698098D8, 0x8B44F7AF, 0xFFFF5BB1, 0x895CD7BE, 0x6B901122, 0xFD987193, 0xA679438E, 0x49B40821,
   0xF61E2562, 0xC040B340, 0x265E5A51, 0xE9B6C7AA, 0xD62F105D, 0x02441453, 0xD8A1E681, 0xE7D3FBC8,
   0x21E1CDE6, 0xC33707D6, 0xF4D50D87, 0x455A14ED, 0xA9E3E905, 0xFCEFA3F8, 0x676F02D9, 0x8D2A4C8A,
   0xFFFA3942, 0x8771F681, 0x6D9D6122, 0xFDE5380C, 0xA4BEEA44, 0x4BDECFA9, 0xF6BB4B60, 0xBEBFBC70,
   0x289B7EC6, 0xEAA127FA, 0xD4EF3085, 0x04881D05, 0xD9D4D039, 0xE6DB99E5, 0x1FA27CF8, 0xC4AC5665,
   0xF4292244, 0x432AFF97, 0xAB9423A7, 0xFC93A039, 0x655B59C3, 0x8F0CCC92, 0xFFEFF47D, 0x85845DD1,
   0x6FA87E4F, 0xFE2CE6E0, 0xA3014314, 0x4E0811A1, 0xF7537E82, 0xBD3AF235, 0x2AD7D2BB, 0xEB86D391]

/-- The 64 MD5 per-round left-rotation amounts. -/
def md5shift : List ℕ :=
  [7, 12, 17, 22, 7, 12, 17, 22, 7, 12, 17, 22, 7, 12, 17, 22,
   5, 9, 14, 20, 5, 9, 14, 20, 5, 9, 14, 20, 5, 9, 14, 20,
   4, 11, 16, 23, 4, 11, 16, 23, 4, 11, 16, 23, 4, 11, 16, 23,
   6, 10, 15, 21, 6, 10, 15, 21, 6, 10, 15, 21, 6, 10, 15, 21]

/-- One MD5 round: `w` gives the 16 message words of the current block. -/
def md5round (w : ℕ → ℕ) (st : ℕ × ℕ × ℕ × ℕ) (i : ℕ) : ℕ × ℕ × ℕ × ℕ :=
  let (a, b, c, d) := st
  let fg : ℕ × ℕ :=
    if i < 16 then (md5F b c d, i)
    else if i < 32 then (md5G b c d, (5 * i + 1) % 16)
    else if i < 48 then (md5H b c d, (3 * i + 5) % 16)
    else (md5I b c d, (7 * i) % 16)
  let tmp := (fg.1 + a + md5K.getD i 0 + w fg.2) % 4294967296
  (d, (b + rotl32 tmp (md5shift.getD i 0)) % 4294967296, b, c)

/-- Process one 64-byte block. -/
def md5block (st : ℕ × ℕ × ℕ × ℕ) (block : List ℕ) : ℕ × ℕ × ℕ × ℕ :=
  let w : ℕ → ℕ := fun k =>
    block.getD (4 * k) 0 + 256 * block.getD (4 * k + 1) 0 +
      65536 * block.getD (4 * k + 2) 0 + 16777216 * block.getD (4 * k + 3) 0
  let r := (List.range 64).foldl (md5round w) st
  ((st.1 + r.1) % 4294967296, (st.2.1 + r.2.1) % 4294967296,
   (st.2.2.1 + r.2.2.1) % 4294967296, (st.2.2.2 + r.2.2.2) % 4294967296)

/-- MD5 padding: `0x80`, zeros to 56 mod 64, then the bit length as 8
little-endian bytes. -/
def md5pad (msg : List ℕ) : List ℕ :=
  msg ++ [0x80] ++ List.replicate ((119 - msg.length % 64) % 64) 0 ++
    toBytesLE8 (8 * msg.length)

/-- Process `n` 64-byte blocks. -/
def md5loop : ℕ → (ℕ × ℕ × ℕ × ℕ) → List ℕ → ℕ × ℕ × ℕ × ℕ
  | 0, st, _ => st
  | n + 1, st, bytes => md5loop n (md5block st (bytes.take 64)) (bytes.drop 64)

/-- The 16-byte MD5 digest of a byte string. -/
def md5digest (msg : List ℕ) : List ℕ :=
  let padded := md5pad msg
  let r := md5loop (padded.length / 64) (0x67452301, 0xEFCDAB89, 0x98BADCFE, 0x10325476) padded
  toBytesLE4 r.1 ++ toBytesLE4 r.2.1 ++ toBytesLE4 r.2.2.1 ++ toBytesLE4 r.2.2.2

/-- Sanity check of the MD5 embedding against the standard test vector
`md5("") = d41d8cd98f00b204e9800998ecf8427e`. -/
theorem md5digest_empty :
    md5digest [] =
      [0xd4, 0x1d, 0x8c, 0xd9, 0x8f, 0x00, 0xb2, 0x04,
       0xe9, 0x80, 0x09, 0x98, 0xec, 0xf8, 0x42, 0x7e] := by
  decide

/-! ## `src/hash.py` — hash engine and gradient generator -/

namespace hash

def _MAX_UINT32 : ℕ := 0xFFFFFFFF

/-- `src/hash.py:_hash_int`: cast to uint32 (`n & 0xFFFFFFFF`, i.e. `n % 2^32`
on Python ints), serialize to 4 little-endian bytes, MD5, read the digest
big-endian, keep the low 32 bits. -/
def _hash_int (n : ℤ) : ℕ :=
  fromBytesBE (md5digest (toBytesLE4 ((n % 4294967296).toNat))) % 4294967296

/-- `src/hash.py:_hash_combine`, the `boost::hash_combine` mixing step on
uint32 values. -/
def _hash_combine (a b : ℕ) : ℕ :=
  a ^^^ ((b + 0x9E3779B9 + ((a <<< 6) % 4294967296) + (a >>> 2)) % 4294967296)

/-- `src/hash.py:_hash_grid_point_md5`. -/
def _hash_grid_point_md5 (x y octave : ℤ) : ℕ :=
  _hash_combine (_hash_combine (_hash_int x) (_hash_int y)) (_hash_int octave)

/-- The FNV-1a accumulation step: XOR in the byte, multiply by the 32-bit
FNV prime, keep the low 32 bits. -/
def fnvStep (h char : ℕ) : ℕ := ((h ^^^ char) * 0x01000193) % 4294967296

/-- `src/hash.py:_hash_grid_point_fnv`: add the arbitrary offset `0x9E3779B9`
to each input, cast to uint32, serialize little-endian, then run 32-bit
FNV-1a over the 12 bytes of `x`, `y`, `octave`. -/
def _hash_grid_point_fnv (x y octave : ℤ) : ℕ :=
  let x_bts := toBytesLE4 (((x + 0x9E3779B9) % 4294967296).toNat)
  let y_bts := toBytesLE4 (((y + 0x9E3779B9) % 4294967296).toNat)
  let o_bts := toBytesLE4 (((octave + 0x9E3779B9) % 4294967296).toNat)
  (x_bts ++ y_bts ++ o_bts).foldl fnvStep 0x811C9DC5

/-- `src/hash.py:get_gradient_vector`, line 89: the hash-to-angle map
`angle = 2π·h/(_MAX_UINT32 + 1)`. -/
noncomputable def angleOf (h : ℕ) : ℝ :=
  2 * Real.pi * h / ((_MAX_UINT32 : ℝ) + 1)

/-- `src/hash.py:get_gradient_vector`: select the hash by the `PERLIN_HASH`
variant string, map the hash to an angle, return `(cos θ, sin θ)`.  An
unrecognized variant raises `NotImplementedError`. -/
noncomputable def get_gradient_vector (variant : String) (x y octave : ℤ) :
    Except String (ℝ × ℝ) :=
  if variant = "FNV" then
    .ok (Real.cos (angleOf (_hash_grid_point_fnv x y octave)),
         Real.sin (angleOf (_hash_grid_point_fnv x y octave)))
  else if variant = "MD5" then
    .ok (Real.cos (angleOf (_hash_grid_point_md5 x y octave)),
         Real.sin (angleOf (_hash_grid_point_md5 x y octave)))
  else
    .error ("Hashing not implemented: " ++ variant)

/-- Sanity check: concrete FNV hash values used further below. -/
theorem fnv_values :
    _hash_grid_point_fnv 0 0 0 = 4266210486 ∧
      _hash_grid_point_fnv 1 0 0 = 656741321 := by
  constructor <;> decide

end hash

/-! ## `perlin/_core.py` — scalar and vectorized cell evaluators -/

namespace core

/-- Python `int(x)` on a float: truncation toward zero (`perlin/_core.py`
lines 59–60 compute the grid point as `grid_x = int(x)`). -/
def pyTrunc (x : ℚ) : ℤ := if x < 0 then ⌈x⌉ else ⌊x⌋

/-- `perlin/_core.py:_interpolate`: smootherstep interpolation
`(a1 - a0)·t³·(t·(6t - 15) + 10) + a0`. -/
noncomputable def _interpolate (a0 a1 t : ℝ) : ℝ :=
  (a1 - a0) * t * t * t * (t * (6 * t - 15) + 10) + a0

/-- Modelled from the spec: `perlin/_core.py` imports `get_gradient_vector`
from `perlin/_hash.py`, which is absent from the sources.  Per spec §4.1–§4.2
the gradient of a grid point is `(cos θ, sin θ)` with `θ = 2π·h/2^32` and `h`
the 32-bit hash of `(x, y, octave)`; the FNV-1a variant is the default, with
the constants of the sibling implementation `src/hash.py`. -/
noncomputable def core_gradient (x y octave : ℤ) : ℝ × ℝ :=
  (Real.cos (hash.angleOf (hash._hash_grid_point_fnv x y octave)),
   Real.sin (hash.angleOf (hash._hash_grid_point_fnv x y octave)))

/-- `perlin/_core.py:_grid_dot_product`: dot product of the corner's gradient
with the displacement from the corner to the point, scaled by `√2`. -/
noncomputable def _grid_dot_product (grid_x grid_y : ℤ) (x y : ℚ) (octave : ℤ) : ℝ :=
  let g := core_gradient grid_x grid_y octave
  let disp_x : ℝ := (x : ℝ) - (grid_x : ℤ)
  let disp_y : ℝ := (y : ℝ) - (grid_y : ℤ)
  Real.sqrt 2 * (g.1 * disp_x + g.2 * disp_y)

/-- `perlin/_core.py:perlin`: scalar Perlin noise at a point.  The grid
origin is computed with Python `int()` (truncation toward zero). -/
noncomputable def perlin (x y : ℚ) (octave : ℤ) : ℝ :=
  let grid_x := pyTrunc x
  let grid_y := pyTrunc y
  let bottom_left := _grid_dot_product grid_x grid_y x y octave
  let bottom_right := _grid_dot_product (grid_x + 1) grid_y x y octave
  let top_right := _grid_dot_product (grid_x + 1) (grid_y + 1) x y octave
  let top_left := _grid_dot_product grid_x (grid_y + 1) x y octave
  let t_x : ℝ := (x : ℝ) - (grid_x : ℤ)
  let t_y : ℝ := (y : ℝ) - (grid_y : ℤ)
  _interpolate (_interpolate bottom_left bottom_right t_x)
    (_interpolate top_left top_right t_x) t_y

/-- `perlin/_core.py:perlin_cell`, element `(i, j)` of the returned
`resolution × resolution` array: the four corner gradients are fetched once,
the sample point is `(grid_x + i/resolution, grid_y + j/resolution)`
(`np.linspace(0, 1, num=resolution, endpoint=False)` and `meshgrid`
with `indexing="ij"`), and the same smootherstep interpolation is applied
with weights `t_x = i/resolution`, `t_y = j/resolution`. -/
noncomputable def perlin_cell (grid_x grid_y octave : ℤ) (resolution : ℕ)
    (i j : ℕ) : ℝ :=
  let t : ℕ → ℝ := fun k => (k : ℝ) / (resolution : ℕ)
  let x : ℝ := (grid_x : ℤ) + t i
  let y : ℝ := (grid_y : ℤ) + t j
  let dot : ℤ → ℤ → ℝ := fun cx cy =>
    let g := core_gradient cx cy octave
    (g.1 * (x - (cx : ℤ)) + g.2 * (y - (cy : ℤ))) * Real.sqrt 2
  let bottom := _interpolate (dot grid_x grid_y) (dot (grid_x + 1) grid_y) (t i)
  let top := _interpolate (dot grid_x (grid_y + 1)) (dot (grid_x + 1) (grid_y + 1)) (t i)
  _interpolate bottom top (t j)

/-- The smootherstep curve `t³(t(6t - 15) + 10)` used by `_interpolate`. -/
noncomputable def sstep (t : ℝ) : ℝ := t * t * t * (t * (6 * t - 15) + 10)

theorem interp_eq (a0 a1 t : ℝ) :
    _interpolate a0 a1 t = (1 - sstep t) * a0 + sstep t * a1 := by
  simp only [_interpolate, sstep]; ring

theorem sstep_nonneg {t : ℝ} (h0 : 0 ≤ t) : 0 ≤ sstep t := by
  have h : 0 ≤ t * (6 * t - 15) + 10 := by nlinarith [sq_nonneg (2 * t - 5 / 2)]
  have ht3 : 0 ≤ t * t * t := by positivity
  simpa [sstep] using mul_nonneg ht3 h

theorem sstep_le_one {t : ℝ} (h0 : 0 ≤ t) (h1 : t ≤ 1) : sstep t ≤ 1 := by
  have key : 1 - sstep t = (1 - t) ^ 3 * (6 * t ^ 2 + 3 * t + 1) := by
    simp only [sstep]; ring
  nlinarith [pow_nonneg (sub_nonneg.2 h1) 3, sq_nonneg t]

/-- Convexity of the square: a convex combination of `p` and `q`, squared, is
at most the convex combination of the squares. -/
theorem sq_convex {p q u : ℝ} (h0 : 0 ≤ u) (h1 : u ≤ 1) :
    ((1 - u) * p + u * q) ^ 2 ≤ (1 - u) * p ^ 2 + u * q ^ 2 := by
  nlinarith [mul_nonneg (mul_nonneg h0 (sub_nonneg.2 h1)) (sq_nonneg (p - q))]

/-- Cauchy–Schwarz for a unit vector `(a, b)`: `(a·x + b·y)² ≤ x² + y²`. -/
theorem dot_sq_le {a b : ℝ} (x y : ℝ) (h : a ^ 2 + b ^ 2 = 1) :
    (a * x + b * y) ^ 2 ≤ x ^ 2 + y ^ 2 := by
  nlinarith [sq_nonneg (a * y - b * x)]

/-- The weighted squared-displacement profile of one axis is at most `1/4`:
`(1 - s(t))·t² + s(t)·(t - 1)² ≤ 1/4` on `[0, 1]`. -/
theorem phi_le_quarter {t : ℝ} (h0 : 0 ≤ t) (h1 : t ≤ 1) :
    (1 - sstep t) * t ^ 2 + sstep t * (t - 1) ^ 2 ≤ 1 / 4 := by
  have key : 1 / 4 - ((1 - sstep t) * t ^ 2 + sstep t * (t - 1) ^ 2) =
      (t - 1 / 2) ^ 2 * (12 * (t * (t - 1)) ^ 2 + (1 + 4 * (t * (1 - t)))) := by
    simp only [sstep]; ring
  have hQ : 0 ≤ 12 * (t * (t - 1)) ^ 2 + (1 + 4 * (t * (1 - t))) := by
    nlinarith [sq_nonneg (t * (t - 1)), mul_nonneg h0 (sub_nonneg.2 h1)]
  nlinarith [mul_nonneg (sq_nonneg (t - 1 / 2)) hQ]

/-- Core range bound: the smootherstep blend of the four `√2`-scaled corner
dot products of unit gradients against the in-cell displacements has absolute
value at most `1` whenever both interpolation weights lie in `[0, 1]`. -/
theorem abs_blend_le_one (a00 b00 a10 b10 a01 b01 a11 b11 tx ty : ℝ)
    (h00 : a00 ^ 2 + b00 ^ 2 = 1) (h10 : a10 ^ 2 + b10 ^ 2 = 1)
    (h01 : a01 ^ 2 + b01 ^ 2 = 1) (h11 : a11 ^ 2 + b11 ^ 2 = 1)
    (htx0 : 0 ≤ tx) (htx1 : tx ≤ 1) (hty0 : 0 ≤ ty) (hty1 : ty ≤ 1) :
    |_interpolate
        (_interpolate (Real.sqrt 2 * (a00 * tx + b00 * ty))
          (Real.sqrt 2 * (a10 * (tx - 1) + b10 * ty)) tx)
        (_interpolate (Real.sqrt 2 * (a01 * tx + b01 * (ty - 1)))
          (Real.sqrt 2 * (a11 * (tx - 1) + b11 * (ty - 1))) tx) ty| ≤ 1 := by
  have hu0 := sstep_nonneg htx0
  have hu1 := sstep_le_one htx0 htx1
  have hv0 := sstep_nonneg hty0
  have hv1 := sstep_le_one hty0 hty1
  set u := sstep tx with hu
  set v := sstep ty with hv
  set e00 := a00 * tx + b00 * ty with he00
  set e10 := a10 * (tx - 1) + b10 * ty with he10
  set e01 := a01 * tx + b01 * (ty - 1) with he01
  set e11 := a11 * (tx - 1) + b11 * (ty - 1) with he11
  set B := (1 - u) * e00 + u * e10 with hB
  set T := (1 - u) * e01 + u * e11 with hT
  have hBsq : B ^ 2 ≤ (1 - u) * e00 ^ 2 + u * e10 ^ 2 := sq_convex hu0 hu1
  have hTsq : T ^ 2 ≤ (1 - u) * e01 ^ 2 + u * e11 ^ 2 := sq_convex hu0 hu1
  have h00' : e00 ^ 2 ≤ tx ^ 2 + ty ^ 2 := dot_sq_le tx ty h00
  have h10' : e10 ^ 2 ≤ (tx - 1) ^ 2 + ty ^ 2 := dot_sq_le (tx - 1) ty h10
  have h01' : e01 ^ 2 ≤ tx ^ 2 + (ty - 1) ^ 2 := dot_sq_le tx (ty - 1) h01
  have h11' : e11 ^ 2 ≤ (tx - 1) ^ 2 + (ty - 1) ^ 2 := dot_sq_le (tx - 1) (ty - 1) h11
  have hI : ((1 - v) * B + v * T) ^ 2 ≤ 1 / 2 := by
    have h1 : ((1 - v) * B + v * T) ^ 2 ≤ (1 - v) * B ^ 2 + v * T ^ 2 :=
      sq_convex hv0 hv1
    have h2 : (1 - v) * B ^ 2 + v * T ^ 2 ≤
        ((1 - u) * tx ^ 2 + u * (tx - 1) ^ 2) +
          ((1 - v) * ty ^ 2 + v * (ty - 1) ^ 2) := by
      have hb : (1 - v) * B ^ 2 ≤
          (1 - v) * ((1 - u) * (tx ^ 2 + ty ^ 2) + u * ((tx - 1) ^ 2 + ty ^ 2)) := by
        apply mul_le_mul_of_nonneg_left _ (by linarith)
        calc B ^ 2 ≤ (1 - u) * e00 ^ 2 + u * e10 ^ 2 := hBsq
          _ ≤ (1 - u) * (tx ^ 2 + ty ^ 2) + u * ((tx - 1) ^ 2 + ty ^ 2) := by
              apply add_le_add
              · exact mul_le_mul_of_nonneg_left h00' (by linarith)
              · exact mul_le_mul_of_nonneg_left h10' hu0
      have ht : v * T ^ 2 ≤
          v * ((1 - u) * (tx ^ 2 + (ty - 1) ^ 2) + u * ((tx - 1) ^ 2 + (ty - 1) ^ 2)) := by
        apply mul_le_mul_of_nonneg_left _ hv0
        calc T ^ 2 ≤ (1 - u) * e01 ^ 2 + u * e11 ^ 2 := hTsq
          _ ≤ (1 - u) * (tx ^ 2 + (ty - 1) ^ 2) + u * ((tx - 1) ^ 2 + (ty - 1) ^ 2) := by
              apply add_le_add
              · exact mul_le_mul_of_nonneg_left h01' (by linarith)
              · exact mul_le_mul_of_nonneg_left h11' hu0
      calc (1 - v) * B ^ 2 + v * T ^ 2 ≤
          (1 - v) * ((1 - u) * (tx ^ 2 + ty ^ 2) + u * ((tx - 1) ^ 2 + ty ^ 2)) +
            v * ((1 - u) * (tx ^ 2 + (ty - 1) ^ 2) + u * ((tx - 1) ^ 2 + (ty - 1) ^ 2)) :=
          add_le_add hb ht
        _ = ((1 - u) * tx ^ 2 + u * (tx - 1) ^ 2) +
            ((1 - v) * ty ^ 2 + v * (ty - 1) ^ 2) := by ring
    have hφx : (1 - u) * tx ^ 2 + u * (tx - 1) ^ 2 ≤ 1 / 4 := by
      simpa [hu] using phi_le_quarter htx0 htx1
    have hφy : (1 - v) * ty ^ 2 + v * (ty - 1) ^ 2 ≤ 1 / 4 := by
      simpa [hv] using phi_le_quarter hty0 hty1
    exact h1.trans (h2.trans (by linarith))
  have hsplit :
      _interpolate
          (_interpolate (Real.sqrt 2 * e00) (Real.sqrt 2 * e10) tx)
          (_interpolate (Real.sqrt 2 * e01) (Real.sqrt 2 * e11) tx) ty =
        Real.sqrt 2 * ((1 - v) * B + v * T) := by
    simp only [interp_eq, ← hu, ← hv, hB, hT]; ring
  rw [hsplit]
  have hsq : (Real.sqrt 2 * ((1 - v) * B + v * T)) ^ 2 ≤ 1 := by
    have h2 : (Real.sqrt 2) ^ 2 = 2 := Real.sq_sqrt (by norm_num)
    calc (Real.sqrt 2 * ((1 - v) * B + v * T)) ^ 2 =
        2 * ((1 - v) * B + v * T) ^ 2 := by rw [mul_pow, h2]
      _ ≤ 2 * (1 / 2) := by linarith
      _ = 1 := by norm_num
  exact (sq_le_one_iff_abs_le_one _).mp hsq

theorem core_gradient_unit (x y o : ℤ) :
    (core_gradient x y o).1 ^ 2 + (core_gradient x y o).2 ^ 2 = 1 := by
  simp [core_gradient, Real.cos_sq_add_sin_sq]

theorem pyTrunc_eq_floor {x : ℚ} (hx : 0 ≤ x) : pyTrunc x = ⌊x⌋ :=
  if_neg (not_lt.2 hx)

/-- For non-negative sample coordinates (where Python `int()` agrees with
`floor` and the interpolation weights lie in `[0, 1)`), scalar Perlin noise
is bounded by `1` in absolute value. -/
theorem abs_perlin_le_one {x y : ℚ} (hx : 0 ≤ x) (hy : 0 ≤ y) (o : ℤ) :
    |perlin x y o| ≤ 1 := by
  have hgx : pyTrunc x = ⌊x⌋ := pyTrunc_eq_floor hx
  have hgy : pyTrunc y = ⌊y⌋ := pyTrunc_eq_floor hy
  have hfx1 : ((⌊x⌋ : ℤ) : ℝ) ≤ ((x : ℚ) : ℝ) := by exact_mod_cast Int.floor_le x
  have hfx2 : ((x : ℚ) : ℝ) < ((⌊x⌋ : ℤ) : ℝ) + 1 := by exact_mod_cast Int.lt_floor_add_one x
  have hfy1 : ((⌊y⌋ : ℤ) : ℝ) ≤ ((y : ℚ) : ℝ) := by exact_mod_cast Int.floor_le y
  have hfy2 : ((y : ℚ) : ℝ) < ((⌊y⌋ : ℤ) : ℝ) + 1 := by exact_mod_cast Int.lt_floor_add_one y
  have hval : perlin x y o =
      _interpolate
        (_interpolate
          (Real.sqrt 2 * ((core_gradient ⌊x⌋ ⌊y⌋ o).1 * ((x : ℝ) - (⌊x⌋ : ℤ)) +
            (core_gradient ⌊x⌋ ⌊y⌋ o).2 * ((y : ℝ) - (⌊y⌋ : ℤ))))
          (Real.sqrt 2 * ((core_gradient (⌊x⌋ + 1) ⌊y⌋ o).1 * (((x : ℝ) - (⌊x⌋ : ℤ)) - 1) +
            (core_gradient (⌊x⌋ + 1) ⌊y⌋ o).2 * ((y : ℝ) - (⌊y⌋ : ℤ))))
          ((x : ℝ) - (⌊x⌋ : ℤ)))
        (_interpolate
          (Real.sqrt 2 * ((core_gradient ⌊x⌋ (⌊y⌋ + 1) o).1 * ((x : ℝ) - (⌊x⌋ : ℤ)) +
            (core_gradient ⌊x⌋ (⌊y⌋ + 1) o).2 * (((y : ℝ) - (⌊y⌋ : ℤ)) - 1)))
          (Real.sqrt 2 * ((core_gradient (⌊x⌋ + 1) (⌊y⌋ + 1) o).1 * (((x : ℝ) - (⌊x⌋ : ℤ)) - 1) +
            (core_gradient (⌊x⌋ + 1) (⌊y⌋ + 1) o).2 * (((y : ℝ) - (⌊y⌋ : ℤ)) - 1)))
          ((x : ℝ) - (⌊x⌋ : ℤ)))
        ((y : ℝ) - (⌊y⌋ : ℤ)) := by
    simp only [perlin, _grid_dot_product, hgx, hgy, _interpolate]
    push_cast
    ring
  rw [hval]
  exact abs_blend_le_one _ _ _ _ _ _ _ _ _ _
    (core_gradient_unit _ _ _) (core_gradient_unit _ _ _)
    (core_gradient_unit _ _ _) (core_gradient_unit _ _ _)
    (by linarith) (by linarith) (by linarith) (by linarith)

/-- Every element of the vectorized cell array is bounded by `1` in absolute
value: the interpolation weights `i/res`, `j/res` always lie in `[0, 1)`. -/
theorem abs_perlin_cell_le_one (grid_x grid_y octave : ℤ) {resolution i j : ℕ}
    (hi : i < resolution) (hj : j < resolution) :
    |perlin_cell grid_x grid_y octave resolution i j| ≤ 1 := by
  have hres : 0 < (resolution : ℝ) := by
    have : 0 < resolution := (Nat.zero_le i).trans_lt hi
    exact_mod_cast this
  have hti0 : 0 ≤ (i : ℝ) / (resolution : ℕ) := by positivity
  have hti1 : (i : ℝ) / (resolution : ℕ) ≤ 1 := by
    rw [div_le_one hres]
    exact_mod_cast hi.le
  have htj0 : 0 ≤ (j : ℝ) / (resolution : ℕ) := by positivity
  have htj1 : (j : ℝ) / (resolution : ℕ) ≤ 1 := by
    rw [div_le_one hres]
    exact_mod_cast hj.le
  have hval : perlin_cell grid_x grid_y octave resolution i j =
      _interpolate
        (_interpolate
          (Real.sqrt 2 * ((core_gradient grid_x grid_y octave).1 * ((i : ℝ) / (resolution : ℕ)) +
            (core_gradient grid_x grid_y octave).2 * ((j : ℝ) / (resolution : ℕ))))
          (Real.sqrt 2 * ((core_gradient (grid_x + 1) grid_y octave).1 * ((i : ℝ) / (resolution : ℕ) - 1) +
            (core_gradient (grid_x + 1) grid_y octave).2 * ((j : ℝ) / (resolution : ℕ))))
          ((i : ℝ) / (resolution : ℕ)))
        (_interpolate
          (Real.sqrt 2 * ((core_gradient grid_x (grid_y + 1) octave).1 * ((i : ℝ) / (resolution : ℕ)) +
            (core_gradient grid_x (grid_y + 1) octave).2 * ((j : ℝ) / (resolution : ℕ) - 1)))
          (Real.sqrt 2 * ((core_gradient (grid_x + 1) (grid_y + 1) octave).1 * ((i : ℝ) / (resolution : ℕ) - 1) +
            (core_gradient (grid_x + 1) (grid_y + 1) octave).2 * ((j : ℝ) / (resolution : ℕ) - 1)))
          ((i : ℝ) / (resolution : ℕ)))
        ((j : ℝ) / (resolution : ℕ)) := by
    simp only [perlin_cell, _interpolate]
    push_cast
    ring
  rw [hval]
  exact abs_blend_le_one _ _ _ _ _ _ _ _ _ _
    (core_gradient_unit _ _ _) (core_gradient_unit _ _ _)
    (core_gradient_unit _ _ _) (core_gradient_unit _ _ _)
    hti0 hti1 htj0 htj1

theorem pyTrunc_intCast (m : ℤ) : pyTrunc (m : ℚ) = m := by
  unfold pyTrunc
  rcases lt_or_le (m : ℚ) 0 with h | h
  · rw [if_pos h, Int.ceil_intCast]
  · rw [if_neg (not_lt.2 h), Int.floor_intCast]

/-- For a cell at non-negative grid coordinates, element `(i, j)` of the
vectorized array equals the scalar evaluator at the corresponding fractional
coordinate (exact arithmetic). -/
theorem cell_scalar_equiv {grid_x grid_y : ℤ} (hgx : 0 ≤ grid_x) (hgy : 0 ≤ grid_y)
    (octave : ℤ) {resolution i j : ℕ} (hi : i < resolution) (hj : j < resolution) :
    perlin_cell grid_x grid_y octave resolution i j =
      perlin ((grid_x : ℚ) + (i : ℚ) / (resolution : ℚ))
        ((grid_y : ℚ) + (j : ℚ) / (resolution : ℚ)) octave := by
  have hres : 0 < (resolution : ℚ) := by
    have : 0 < resolution := (Nat.zero_le i).trans_lt hi
    exact_mod_cast this
  have hfrac : ∀ k : ℕ, k < resolution → ⌊(k : ℚ) / (resolution : ℚ)⌋ = 0 := by
    intro k hk
    rw [Int.floor_eq_zero_iff]
    constructor
    · positivity
    · rw [div_lt_one hres]
      exact_mod_cast hk
  have htrx : pyTrunc ((grid_x : ℚ) + (i : ℚ) / (resolution : ℚ)) = grid_x := by
    rw [pyTrunc_eq_floor (by positivity), Int.floor_int_add, hfrac i hi, add_zero]
  have htry : pyTrunc ((grid_y : ℚ) + (j : ℚ) / (resolution : ℚ)) = grid_y := by
    rw [pyTrunc_eq_floor (by positivity), Int.floor_int_add, hfrac j hj, add_zero]
  simp only [perlin, perlin_cell, _grid_dot_product, _interpolate, htrx, htry]
  push_cast
  ring

end core

/-! ## Numeric bounds on the two gradient angles used by the counterexamples

`_hash_grid_point_fnv 0 0 0 = 4266210486` gives an angle just below `2π`
(cosine close to `1`), and `_hash_grid_point_fnv 1 0 0 = 656741321` gives an
angle of about `0.9608` radians (cosine about `0.573`). -/

theorem angleOf_eq (h : ℕ) :
    hash.angleOf h = 2 * Real.pi * ((h : ℝ) / 4294967296) := by
  have hM : ((hash._MAX_UINT32 : ℕ) : ℝ) + 1 = 4294967296 := by
    norm_num [hash._MAX_UINT32]
  rw [hash.angleOf, hM]
  ring

theorem cos_angle_fnv00_lb :
    (0.999 : ℝ) ≤ Real.cos (hash.angleOf 4266210486) := by
  rw [angleOf_eq]
  push_cast
  have hrw : 2 * Real.pi * ((4266210486 : ℝ) / 4294967296) =
      -(2 * Real.pi * (28756810 / 4294967296)) + 2 * Real.pi := by ring
  rw [hrw, Real.cos_add_two_pi, Real.cos_neg]
  have hcos : 1 - (2 * Real.pi * ((28756810 : ℝ) / 4294967296)) ^ 2 / 2 ≤
      Real.cos (2 * Real.pi * ((28756810 : ℝ) / 4294967296)) :=
    Real.one_sub_sq_div_two_le_cos
  have hub : 2 * Real.pi * ((28756810 : ℝ) / 4294967296) ≤ 0.0421 := by
    nlinarith [Real.pi_lt_d6]
  have hlb : 0 ≤ 2 * Real.pi * ((28756810 : ℝ) / 4294967296) := by positivity
  nlinarith [hcos, hub, hlb]

theorem cos_angle_fnv10_lb :
    (0.538 : ℝ) ≤ Real.cos (hash.angleOf 656741321) := by
  rw [angleOf_eq]
  push_cast
  have hcos : 1 - (2 * Real.pi * ((656741321 : ℝ) / 4294967296)) ^ 2 / 2 ≤
      Real.cos (2 * Real.pi * ((656741321 : ℝ) / 4294967296)) :=
    Real.one_sub_sq_div_two_le_cos
  have hub : 2 * Real.pi * ((656741321 : ℝ) / 4294967296) ≤ 0.9607589 := by
    nlinarith [Real.pi_lt_d6]
  have hlb : 0 ≤ 2 * Real.pi * ((656741321 : ℝ) / 4294967296) := by positivity
  nlinarith [hcos, hub, hlb]

theorem cos_angle_fnv10_ub :
    Real.cos (hash.angleOf 656741321) ≤ (0.591 : ℝ) := by
  rw [angleOf_eq]
  push_cast
  set θ : ℝ := 2 * Real.pi * ((656741321 : ℝ) / 4294967296) with hθ
  have hhalf_lb : (0.48037 : ℝ) ≤ θ / 2 := by
    rw [hθ]; nlinarith [Real.pi_gt_d6]
  have hhalf_ub : θ / 2 ≤ (0.4803795 : ℝ) := by
    rw [hθ]; nlinarith [Real.pi_lt_d6]
  have hhalf_pos : (0 : ℝ) < θ / 2 := lt_of_lt_of_le (by norm_num) hhalf_lb
  have hhalf_le1 : θ / 2 ≤ 1 := le_trans hhalf_ub (by norm_num)
  have hsin := Real.sin_gt_sub_cube hhalf_pos hhalf_le1
  have hsq : (θ / 2) ^ 2 ≤ (0.2308 : ℝ) := by nlinarith [hhalf_ub, hhalf_pos.le]
  have hcube : (θ / 2) ^ 3 ≤ (θ / 2) * 0.2308 := by nlinarith [hsq, hhalf_pos.le]
  have hsin_lb : (0.4526 : ℝ) ≤ Real.sin (θ / 2) := by
    nlinarith [hsin, hcube, hhalf_lb]
  have hcosid : Real.cos θ = 1 - 2 * Real.sin (θ / 2) ^ 2 := by
    have h2m := Real.cos_two_mul (θ / 2)
    have hpyth := Real.sin_sq_add_cos_sq (θ / 2)
    rw [show 2 * (θ / 2) = θ by ring] at h2m
    linarith
  rw [hcosid]
  nlinarith [hsin_lb]

/-- Closed form of the scalar evaluator at `(-7/8, 0)`, octave `0`: the
`y`-weight is `0`, so only the two bottom corners `(0,0)` and `(1,0)`
contribute, with the extrapolated weight `s(-7/8) = -304241/16384`. -/
theorem perlin_neg78_eq :
    core.perlin (-7/8 : ℚ) 0 0 =
      Real.sqrt 2 *
        ((4563615 / 131072) * Real.cos (hash.angleOf (hash._hash_grid_point_fnv 1 0 0)) -
          (2244375 / 131072) * Real.cos (hash.angleOf (hash._hash_grid_point_fnv 0 0 0))) := by
  have h1 : core.pyTrunc (-7/8 : ℚ) = 0 := by
    rw [core.pyTrunc, if_pos (by norm_num)]
    rw [Int.ceil_eq_iff]
    push_cast
    norm_num
  have h2 : core.pyTrunc (0 : ℚ) = 0 := by
    rw [core.pyTrunc, if_neg (by norm_num)]
    exact Int.floor_zero
  simp only [core.perlin, core._grid_dot_product, core.core_gradient, core._interpolate,
    h1, h2]
  push_cast
  ring

/-- Closed form of the scalar evaluator at `(-15/16, 0)`, octave `0`. -/
theorem perlin_neg1516_eq :
    core.perlin (-15/16 : ℚ) 0 0 =
      Real.sqrt 2 *
        ((392866875 / 8388608) * Real.cos (hash.angleOf (hash._hash_grid_point_fnv 1 0 0)) -
          (197961195 / 8388608) * Real.cos (hash.angleOf (hash._hash_grid_point_fnv 0 0 0))) := by
  have h1 : core.pyTrunc (-15/16 : ℚ) = 0 := by
    rw [core.pyTrunc, if_pos (by norm_num)]
    rw [Int.ceil_eq_iff]
    push_cast
    norm_num
  have h2 : core.pyTrunc (0 : ℚ) = 0 := by
    rw [core.pyTrunc, if_neg (by norm_num)]
    exact Int.floor_zero
  simp only [core.perlin, core._grid_dot_product, core.core_gradient, core._interpolate,
    h1, h2]
  push_cast
  ring

theorem sqrt_two_ge : (1.41 : ℝ) ≤ Real.sqrt 2 := by
  nlinarith [Real.sq_sqrt (show (0 : ℝ) ≤ 2 by norm_num), Real.sqrt_nonneg 2]

/-- The scalar evaluator leaves `[-1, 1]` at the negative sample `(-15/16, 0)`
(truncation toward zero makes the interpolation extrapolate). -/
theorem perlin_neg1516_gt_one : 1 < core.perlin (-15/16 : ℚ) 0 0 := by
  rw [perlin_neg1516_eq, hash.fnv_values.1, hash.fnv_values.2]
  have hc1ub : Real.cos (hash.angleOf 4266210486) ≤ 1 := Real.cos_le_one _
  have hc2lb := cos_angle_fnv10_lb
  have hE : (1.59 : ℝ) ≤
      (392866875 / 8388608) * Real.cos (hash.angleOf 656741321) -
        (197961195 / 8388608) * Real.cos (hash.angleOf 4266210486) := by
    nlinarith [hc1ub, hc2lb]
  nlinarith [sqrt_two_ge, hE, Real.sqrt_nonneg 2]

/-! ## `src/perlin.py` — middle variant, with Python call-arity semantics

`src/perlin.py` imports `get_gradient_vector` from `src/hash.py`, whose
signature requires three positional arguments `(x, y, octave)` with no
defaults, but calls it with only two. -/

namespace src

/-- Number of required positional parameters of
`src/hash.py:get_gradient_vector` (line 65: `x`, `y`, `octave`, no
defaults). -/
def get_gradient_vector_arity : ℕ := 3

/-- The `TypeError` message raised by Python on an arity mismatch. -/
def arityErrorMsg : String :=
  "TypeError: get_gradient_vector missing 1 required positional argument"

/-- A positional call to `get_gradient_vector`: Python raises `TypeError`
before executing the body when the number of arguments does not match the
signature. -/
noncomputable def call_get_gradient_vector (variant : String) (args : List ℤ) :
    Except String (ℝ × ℝ) :=
  if args.length = get_gradient_vector_arity then
    hash.get_gradient_vector variant (args.getD 0 0) (args.getD 1 0) (args.getD 2 0)
  else
    .error arityErrorMsg

/-- `src/perlin.py:_grid_dot_product` (line 28): invokes
`get_gradient_vector(grid_x, grid_y)` with two positional arguments. -/
noncomputable def _grid_dot_product (variant : String) (grid_x grid_y : ℤ)
    (x y : ℚ) : Except String ℝ :=
  (call_get_gradient_vector variant [grid_x, grid_y]).map fun g =>
    Real.sqrt 2 * (g.1 * ((x : ℝ) - (grid_x : ℤ)) + g.2 * ((y : ℝ) - (grid_y : ℤ)))

/-- `src/perlin.py:perlin`. -/
noncomputable def perlin (variant : String) (x y : ℚ) : Except String ℝ := do
  let grid_x := core.pyTrunc x
  let grid_y := core.pyTrunc y
  let bottom_left ← _grid_dot_product variant grid_x grid_y x y
  let bottom_right ← _grid_dot_product variant (grid_x + 1) grid_y x y
  let top_right ← _grid_dot_product variant (grid_x + 1) (grid_y + 1) x y
  let top_left ← _grid_dot_product variant grid_x (grid_y + 1) x y
  let t_x : ℝ := (x : ℝ) - (grid_x : ℤ)
  let t_y : ℝ := (y : ℝ) - (grid_y : ℤ)
  return core._interpolate (core._interpolate bottom_left bottom_right t_x)
    (core._interpolate top_left top_right t_x) t_y

/-- `src/perlin.py:perlin_cell`, element `(i, j)`: fetches each corner
gradient with the two-argument call `get_gradient_vector(grid[0], grid[1])`
(line 108). -/
noncomputable def perlin_cell (variant : String) (grid_x grid_y : ℤ)
    (resolution : ℕ) (i j : ℕ) : Except String ℝ := do
  let t : ℕ → ℝ := fun k => (k : ℝ) / (resolution : ℕ)
  let x : ℝ := (grid_x : ℤ) + t i
  let y : ℝ := (grid_y : ℤ) + t j
  let dot : (ℝ × ℝ) → ℤ → ℤ → ℝ := fun g cx cy =>
    (g.1 * (x - (cx : ℤ)) + g.2 * (y - (cy : ℤ))) * Real.sqrt 2
  let gbl ← call_get_gradient_vector variant [grid_x, grid_y]
  let gbr ← call_get_gradient_vector variant [grid_x + 1, grid_y]
  let gtr ← call_get_gradient_vector variant [grid_x + 1, grid_y + 1]
  let gtl ← call_get_gradient_vector variant [grid_x, grid_y + 1]
  return core._interpolate
    (core._interpolate (dot gbl grid_x grid_y) (dot gbr (grid_x + 1) grid_y) (t i))
    (core._interpolate (dot gtl grid_x (grid_y + 1)) (dot gtr (grid_x + 1) (grid_y + 1)) (t i))
    (t j)

end src

/-! ## `perlin.py` (top-level) — oldest variant

Its `_hash_int` serializes with `int.to_bytes(n)` using the default
`length=1, byteorder="big"`, which raises `OverflowError` for any `n`
outside `[0, 255]`. -/

namespace top

def _HASH_SIZE : ℕ := 4294967296

/-- Python `int.to_bytes(n)` with default `length=1, byteorder="big"`:
`OverflowError` unless `0 ≤ n < 256`. -/
def int_to_bytes_default (n : ℤ) : Option (List ℕ) :=
  if 0 ≤ n ∧ n < 256 then some [n.toNat] else none

/-- `perlin.py:_hash_int`: md5 of the single-byte serialization, digest read
big-endian, reduced mod `2^32`. -/
def _hash_int (n : ℤ) : Option ℕ :=
  (int_to_bytes_default n).map fun bts => fromBytesBE (md5digest bts) % _HASH_SIZE

/-- `perlin.py:_hash_combine`. -/
def _hash_combine (a b : ℕ) : ℕ :=
  a ^^^ ((b + 0x9E3779B9 + (a <<< 6) % _HASH_SIZE + (a >>> 2)) % _HASH_SIZE)

/-- `perlin.py:_hash_grid_point`: hash the grid point to a unit vector
(no octave parameter in this variant). -/
noncomputable def _hash_grid_point (x y : ℤ) : Option (ℝ × ℝ) := do
  let hx ← _hash_int x
  let hy ← _hash_int y
  let h := _hash_combine hx hy
  let angle : ℝ := ((h : ℕ) : ℝ) / ((_HASH_SIZE : ℕ) : ℝ) * 2 * Real.pi
  return (Real.cos angle, Real.sin angle)

/-- `perlin.py:_grid_dot_product`. -/
noncomputable def _grid_dot_product (grid_x grid_y : ℤ) (x y : ℚ) : Option ℝ :=
  (_hash_grid_point grid_x grid_y).map fun g =>
    Real.sqrt 2 * (g.1 * ((x : ℝ) - (grid_x : ℤ)) + g.2 * ((y : ℝ) - (grid_y : ℤ)))

/-- `perlin.py:perlin` (grid points via `int()` truncation, lines 73–74). -/
noncomputable def perlin (x y : ℚ) : Option ℝ := do
  let x0 := core.pyTrunc x
  let y0 := core.pyTrunc y
  let bottom_left ← _grid_dot_product x0 y0 x y
  let bottom_right ← _grid_dot_product (x0 + 1) y0 x y
  let top_right ← _grid_dot_product (x0 + 1) (y0 + 1) x y
  let top_left ← _grid_dot_product x0 (y0 + 1) x y
  let t_x : ℝ := (x : ℝ) - (x0 : ℤ)
  let t_y : ℝ := (y : ℝ) - (y0 : ℤ)
  return core._interpolate (core._interpolate bottom_left bottom_right t_x)
    (core._interpolate top_left top_right t_x) t_y

theorem hash_int_none {n : ℤ} (h : n < 0 ∨ 255 < n) : _hash_int n = none := by
  have : ¬(0 ≤ n ∧ n < 256) := by omega
  simp [_hash_int, int_to_bytes_default, this]

theorem gdp_none_left {grid_x : ℤ} (grid_y : ℤ) (x y : ℚ)
    (h : _hash_int grid_x = none) : _grid_dot_product grid_x grid_y x y = none := by
  simp [_grid_dot_product, _hash_grid_point, h]

theorem gdp_none_right (grid_x : ℤ) {grid_y : ℤ} (x y : ℚ)
    (h : _hash_int grid_y = none) : _grid_dot_product grid_x grid_y x y = none := by
  cases hg : _hash_int grid_x <;>
    simp [_grid_dot_product, _hash_grid_point, h, hg]

/-- `perlin.py:perlin` propagates the `OverflowError` whenever any of the
four cell-corner coordinates is negative or exceeds 255. -/
theorem perlin_overflow {x y : ℚ}
    (h : core.pyTrunc x < 0 ∨ 255 < core.pyTrunc x + 1 ∨
      core.pyTrunc y < 0 ∨ 255 < core.pyTrunc y + 1) :
    perlin x y = none := by
  rcases h with h | h | h | h
  · have hd : _grid_dot_product (core.pyTrunc x) (core.pyTrunc y) x y = none :=
      gdp_none_left _ x y (hash_int_none (Or.inl h))
    simp [perlin, hd]
  · have hd : _grid_dot_product (core.pyTrunc x + 1) (core.pyTrunc y) x y = none :=
      gdp_none_left _ x y (hash_int_none (Or.inr h))
    cases h1 : _grid_dot_product (core.pyTrunc x) (core.pyTrunc y) x y <;>
      simp [perlin, hd, h1]
  · have hd : _grid_dot_product (core.pyTrunc x) (core.pyTrunc y) x y = none :=
      gdp_none_right _ x y (hash_int_none (Or.inl h))
    simp [perlin, hd]
  · have hd : _grid_dot_product (core.pyTrunc x + 1) (core.pyTrunc y + 1) x y = none :=
      gdp_none_right _ x y (hash_int_none (Or.inr h))
    cases h1 : _grid_dot_product (core.pyTrunc x) (core.pyTrunc y) x y <;>
      cases h2 : _grid_dot_product (core.pyTrunc x + 1) (core.pyTrunc y) x y <;>
        simp [perlin, hd, h1, h2]

end top

/-! ## Reference FNV-1a definition, as worded by the specification (for C4) -/

/-- Byte `i` (little-endian) of a 32-bit value. -/
def specByte (n i : ℕ) : ℕ := n / 256 ^ i % 256

/-- Absorb a list of bytes: XOR the byte into the accumulator, multiply by
the 32-bit FNV prime `0x01000193 = 16777619`, keep the low 32 bits. -/
def fnvAbsorb : ℕ → List ℕ → ℕ
  | h, [] => h
  | h, b :: rest => fnvAbsorb ((h ^^^ b) * 16777619 % 4294967296) rest

/-- The reference FNV-1a hash exactly as the specification describes it:
each of `x`, `y`, `octave` gets the fixed additive offset
`0x9E3779B9 = 2654435769`, is reduced to its 32-bit two's-complement
representation, and is serialized as 4 little-endian bytes; the accumulator
starts at the FNV offset basis `0x811C9DC5 = 2166136261` and absorbs the 12
bytes of `x`, then `y`, then `octave`. -/
def fnvReference (x y octave : ℤ) : ℕ :=
  let xs := ((x + 2654435769) % 4294967296).toNat
  let ys := ((y + 2654435769) % 4294967296).toNat
  let os := ((octave + 2654435769) % 4294967296).toNat
  fnvAbsorb 2166136261
    [specByte xs 0, specByte xs 1, specByte xs 2, specByte xs 3,
     specByte ys 0, specByte ys 1, specByte ys 2, specByte ys 3,
     specByte os 0, specByte os 1, specByte os 2, specByte os 3]

/-! ## FNV-1a injectivity machinery (for C6) -/

namespace hash

theorem fnvStep_lt (h b : ℕ) : fnvStep h b < 4294967296 :=
  Nat.mod_lt _ (by norm_num)

theorem foldl_fnvStep_lt (l : List ℕ) {h : ℕ} (hh : h < 4294967296) :
    l.foldl fnvStep h < 4294967296 := by
  induction l generalizing h with
  | nil => exact hh
  | cons b rest ih => exact ih (fnvStep_lt h b)

/-- Multiplication by the FNV prime is injective modulo `2^32` (the prime is
odd; `899433627` is its inverse). -/
theorem mul_prime_mod_inj {a b : ℕ} (ha : a < 4294967296) (hb : b < 4294967296)
    (h : a * 16777619 % 4294967296 = b * 16777619 % 4294967296) : a = b := by
  have key : ∀ t : ℕ, t < 4294967296 →
      t * 16777619 % 4294967296 * 899433627 % 4294967296 = t := by
    intro t ht
    calc t * 16777619 % 4294967296 * 899433627 % 4294967296 =
        t * 16777619 * 899433627 % 4294967296 := by
          rw [Nat.mod_mul_mod]
      _ = t * (16777619 * 899433627) % 4294967296 := by ring_nf
      _ = t % 4294967296 * ((16777619 * 899433627) % 4294967296) % 4294967296 := by
          rw [← Nat.mul_mod]
      _ = t := by
          have hpq : (16777619 * 899433627) % 4294967296 = 1 := by norm_num
          rw [Nat.mod_eq_of_lt ht, hpq, mul_one]
          exact Nat.mod_eq_of_lt ht
  calc a = a * 16777619 % 4294967296 * 899433627 % 4294967296 := (key a ha).symm
    _ = b * 16777619 % 4294967296 * 899433627 % 4294967296 := by rw [h]
    _ = b := key b hb

theorem xor_byte_lt {h b : ℕ} (hh : h < 4294967296) (hb : b < 256) :
    h ^^^ b < 4294967296 := by
  have h32 : (4294967296 : ℕ) = 2 ^ 32 := by norm_num
  rw [h32] at hh ⊢
  exact Nat.xor_lt_two_pow hh (lt_trans hb (by norm_num))

/-- The FNV step is injective in the accumulator (for a fixed byte). -/
theorem fnvStep_inj_state {h1 h2 b : ℕ} (hb : b < 256) (hh1 : h1 < 4294967296)
    (hh2 : h2 < 4294967296) (hne : h1 ≠ h2) : fnvStep h1 b ≠ fnvStep h2 b := by
  intro heq
  have hx := mul_prime_mod_inj (xor_byte_lt hh1 hb) (xor_byte_lt hh2 hb) heq
  have : (h1 ^^^ b) ^^^ b = (h2 ^^^ b) ^^^ b := by rw [hx]
  rw [Nat.xor_cancel_right, Nat.xor_cancel_right] at this
  exact hne this

/-- The FNV step is injective in the byte (for a fixed accumulator). -/
theorem fnvStep_inj_byte {h b1 b2 : ℕ} (hb1 : b1 < 256) (hb2 : b2 < 256)
    (hh : h < 4294967296) (hne : b1 ≠ b2) : fnvStep h b1 ≠ fnvStep h b2 := by
  intro heq
  have hx := mul_prime_mod_inj (xor_byte_lt hh hb1) (xor_byte_lt hh hb2) heq
  have : h ^^^ (h ^^^ b1) = h ^^^ (h ^^^ b2) := by rw [hx]
  rw [Nat.xor_cancel_left, Nat.xor_cancel_left] at this
  exact hne this

/-- Absorbing the same byte list from distinct accumulators keeps the
accumulators distinct. -/
theorem foldl_fnvStep_ne {l : List ℕ} (hl : ∀ b ∈ l, b < 256) :
    ∀ {h1 h2 : ℕ}, h1 < 4294967296 → h2 < 4294967296 → h1 ≠ h2 →
      l.foldl fnvStep h1 ≠ l.foldl fnvStep h2 := by
  induction l with
  | nil => intro h1 h2 _ _ hne; exact hne
  | cons b rest ih =>
    intro h1 h2 hh1 hh2 hne
    have hb : b < 256 := hl b (List.mem_cons_self b rest)
    exact ih (fun c hc => hl c (List.mem_cons_of_mem b hc))
      (fnvStep_lt h1 b) (fnvStep_lt h2 b) (fnvStep_inj_state hb hh1 hh2 hne)

theorem hash_fnv_lt (x y octave : ℤ) :
    _hash_grid_point_fnv x y octave < 4294967296 := by
  unfold _hash_grid_point_fnv
  exact foldl_fnvStep_lt _ (by norm_num)

/-- Absorbing byte lists that differ in their first byte and share the rest
yields distinct accumulators. -/
theorem foldl_fnvStep_ne_head {common : List ℕ} (hcommon : ∀ b ∈ common, b < 256)
    {A b1 b2 : ℕ} (hA : A < 4294967296) (hb1 : b1 < 256) (hb2 : b2 < 256)
    (hne : b1 ≠ b2) :
    (b1 :: common).foldl fnvStep A ≠ (b2 :: common).foldl fnvStep A := by
  rw [List.foldl_cons, List.foldl_cons]
  exact foldl_fnvStep_ne hcommon (fnvStep_lt _ _) (fnvStep_lt _ _)
    (fnvStep_inj_byte hb1 hb2 hA hne)

/-- Values with an XOR below `256` agree above their low byte. -/
theorem div_256_eq_of_xor_lt {a b : ℕ} (h : a ^^^ b < 256) : a / 256 = b / 256 := by
  have h8 : (a ^^^ b) >>> 8 = a >>> 8 ^^^ b >>> 8 := by
    apply Nat.eq_of_testBit_eq
    intro i
    simp [Nat.testBit_shiftRight, Nat.testBit_xor]
  have hz : (a ^^^ b) >>> 8 = 0 := by
    rw [Nat.shiftRight_eq_div_pow, show (2 : ℕ) ^ 8 = 256 from rfl]
    omega
  rw [h8] at hz
  have hdiv := Nat.xor_eq_zero.mp hz
  rwa [Nat.shiftRight_eq_div_pow, Nat.shiftRight_eq_div_pow,
    show (2 : ℕ) ^ 8 = 256 from rfl] at hdiv

/-- From `a ^^^ b = c ^^^ d` conclude `a ^^^ c = b ^^^ d`. -/
theorem xor_swap_eq {a b c d : ℕ} (h : a ^^^ b = c ^^^ d) : a ^^^ c = b ^^^ d := by
  calc a ^^^ c = a ^^^ (b ^^^ (b ^^^ c)) := by rw [Nat.xor_cancel_left]
    _ = (a ^^^ b) ^^^ (b ^^^ c) := by rw [Nat.xor_assoc]
    _ = (c ^^^ d) ^^^ (b ^^^ c) := by rw [h]
    _ = (b ^^^ c) ^^^ (c ^^^ d) := by rw [Nat.xor_comm]
    _ = b ^^^ (c ^^^ (c ^^^ d)) := by rw [Nat.xor_assoc]
    _ = b ^^^ d := by rw [Nat.xor_cancel_left]

/-- Multiplying two distinct 32-bit values that agree above their low byte by
the FNV prime separates them beyond a byte: their results cannot agree above
the low byte as well. -/
theorem mul_prime_spread {d e : ℕ} (hdm : d < 4294967296) (hem : e < 4294967296)
    (hne : d ≠ e) (hdiv : d / 256 = e / 256)
    (hsdiv : d * 16777619 % 4294967296 / 256 = e * 16777619 % 4294967296 / 256) :
    False := by
  have key : ∀ u v : ℕ, v = u + (v - u) → u < v → v - u ≤ 255 → u < 4294967296 →
      v * 16777619 % 4294967296 / 256 = u * 16777619 % 4294967296 / 256 → False := by
    intro u v hvu hlt hle hu hdivs
    set t := v - u with htdef
    have hmul : v * 16777619 = u * 16777619 + t * 16777619 := by rw [hvu]; ring
    have hstep : (u * 16777619 + t * 16777619) % 4294967296 =
        (u * 16777619 % 4294967296 + t * 16777619) % 4294967296 := by
      conv_lhs => rw [Nat.add_mod]
      rw [Nat.mod_eq_of_lt (show t * 16777619 < 4294967296 by omega)]
    rw [hmul, hstep] at hdivs
    set a := u * 16777619 % 4294967296 with hadef
    have ha : a < 4294967296 := Nat.mod_lt _ (by norm_num)
    have htp1 : 16777619 ≤ t * 16777619 := by omega
    have htp2 : t * 16777619 ≤ 4278292845 := by omega
    rcases Nat.lt_or_ge (a + t * 16777619) 4294967296 with hc | hc
    · rw [Nat.mod_eq_of_lt hc] at hdivs
      omega
    · have hm : (a + t * 16777619) % 4294967296 = a + t * 16777619 - 4294967296 := by
        rw [Nat.mod_eq_sub_mod hc, Nat.mod_eq_of_lt (by omega)]
      rw [hm] at hdivs
      omega
  rcases Nat.lt_or_ge e d with hlt | hge
  · exact key e d (by omega) hlt (by omega) hem hsdiv
  · exact key d e (by omega) (by omega) (by omega) hdm hsdiv.symm

/-- Absorbing two low bytes of distinct values whose upper bytes agree keeps
the accumulators distinct, even when both bytes differ: after the first
differing byte the states are separated by a prime multiple, too far apart
for the second byte's XOR to re-merge them. -/
theorem fnvStep_two_low_bytes_ne {A r1 r2 q1 q2 : ℕ} (hA : A < 4294967296)
    (hr1 : r1 < 256) (hr2 : r2 < 256) (hq1 : q1 < 256) (hq2 : q2 < 256)
    (hrne : r1 ≠ r2) :
    fnvStep (fnvStep A r1) q1 ≠ fnvStep (fnvStep A r2) q2 := by
  intro heq
  have hdm : A ^^^ r1 < 4294967296 := xor_byte_lt hA hr1
  have hem : A ^^^ r2 < 4294967296 := xor_byte_lt hA hr2
  have hdne : A ^^^ r1 ≠ A ^^^ r2 := by
    intro h
    exact hrne ((Nat.xor_cancel_left A r1).symm.trans (by rw [h, Nat.xor_cancel_left]))
  have hde_xor : (A ^^^ r1) ^^^ (A ^^^ r2) = r1 ^^^ r2 := by
    calc (A ^^^ r1) ^^^ (A ^^^ r2) = (r1 ^^^ A) ^^^ (A ^^^ r2) := by rw [Nat.xor_comm A r1]
      _ = r1 ^^^ (A ^^^ (A ^^^ r2)) := by rw [Nat.xor_assoc]
      _ = r1 ^^^ r2 := by rw [Nat.xor_cancel_left]
  have hdiv : (A ^^^ r1) / 256 = (A ^^^ r2) / 256 := by
    apply div_256_eq_of_xor_lt
    rw [hde_xor]
    have h32 : (256 : ℕ) = 2 ^ 8 := rfl
    rw [h32]
    exact Nat.xor_lt_two_pow (by omega) (by omega)
  have hs1m : fnvStep A r1 < 4294967296 := fnvStep_lt _ _
  have hs2m : fnvStep A r2 < 4294967296 := fnvStep_lt _ _
  have hxor := mul_prime_mod_inj (xor_byte_lt hs1m hq1) (xor_byte_lt hs2m hq2) heq
  have hss : fnvStep A r1 ^^^ fnvStep A r2 = q1 ^^^ q2 := xor_swap_eq hxor
  have hss_small : fnvStep A r1 ^^^ fnvStep A r2 < 256 := by
    rw [hss]
    have h32 : (256 : ℕ) = 2 ^ 8 := rfl
    rw [h32]
    exact Nat.xor_lt_two_pow (by omega) (by omega)
  have hsdiv := div_256_eq_of_xor_lt hss_small
  exact mul_prime_spread hdm hem hdne hdiv hsdiv

/-- Distinct 32-bit serializations agreeing on their upper two bytes produce
distinct FNV absorption results from every 32-bit accumulator. -/
theorem foldl_fnvStep_low16_ne {n1 n2 : ℕ} (h1 : n1 < 4294967296)
    (h2 : n2 < 4294967296) (hne : n1 ≠ n2) (hhi : n1 / 65536 = n2 / 65536)
    {A : ℕ} (hA : A < 4294967296) :
    (toBytesLE4 n1).foldl fnvStep A ≠ (toBytesLE4 n2).foldl fnvStep A := by
  have hb2 : n2 / 65536 % 256 = n1 / 65536 % 256 := by rw [hhi]
  have hb3 : n2 / 16777216 % 256 = n1 / 16777216 % 256 := by
    have : n1 / 16777216 = n2 / 16777216 := by omega
    rw [this]
  simp only [toBytesLE4, List.foldl_cons, List.foldl_nil]
  rw [hb2, hb3]
  by_cases hq : n1 / 256 % 256 = n2 / 256 % 256
  · have hr : n1 % 256 ≠ n2 % 256 := by omega
    rw [hq]
    apply fnvStep_inj_state (Nat.mod_lt _ (by norm_num)) (fnvStep_lt _ _) (fnvStep_lt _ _)
    apply fnvStep_inj_state (Nat.mod_lt _ (by norm_num)) (fnvStep_lt _ _) (fnvStep_lt _ _)
    apply fnvStep_inj_state (Nat.mod_lt _ (by norm_num)) (fnvStep_lt _ _) (fnvStep_lt _ _)
    exact fnvStep_inj_byte (Nat.mod_lt _ (by norm_num)) (Nat.mod_lt _ (by norm_num)) hA hr
  · by_cases hr : n1 % 256 = n2 % 256
    · rw [hr]
      apply fnvStep_inj_state (Nat.mod_lt _ (by norm_num)) (fnvStep_lt _ _) (fnvStep_lt _ _)
      apply fnvStep_inj_state (Nat.mod_lt _ (by norm_num)) (fnvStep_lt _ _) (fnvStep_lt _ _)
      exact fnvStep_inj_byte (Nat.mod_lt _ (by norm_num)) (Nat.mod_lt _ (by norm_num))
        (fnvStep_lt _ _) hq
    · apply fnvStep_inj_state (Nat.mod_lt _ (by norm_num)) (fnvStep_lt _ _) (fnvStep_lt _ _)
      apply fnvStep_inj_state (Nat.mod_lt _ (by norm_num)) (fnvStep_lt _ _) (fnvStep_lt _ _)
      exact fnvStep_two_low_bytes_ne hA (Nat.mod_lt _ (by norm_num))
        (Nat.mod_lt _ (by norm_num)) (Nat.mod_lt _ (by norm_num))
        (Nat.mod_lt _ (by norm_num)) hr

/-- The FNV hash equals the octave-byte absorption applied to the
accumulator left by the `x` and `y` bytes. -/
theorem fnv_as_tail (x y octave : ℤ) :
    _hash_grid_point_fnv x y octave =
      (toBytesLE4 (((octave + 0x9E3779B9) % 4294967296).toNat)).foldl fnvStep
        ((toBytesLE4 (((y + 0x9E3779B9) % 4294967296).toNat)).foldl fnvStep
          ((toBytesLE4 (((x + 0x9E3779B9) % 4294967296).toNat)).foldl fnvStep
            0x811C9DC5)) := by
  simp [_hash_grid_point_fnv, List.foldl_append]

/-- For distinct octaves in `[0, 34374]` — the exact range in which the
offset serializations `o + 0x9E3779B9` keep their upper two bytes fixed at
`0x9E37` — the FNV hash differs at every grid coordinate. -/
theorem fnv_octave_ne (x y : ℤ) {o1 o2 : ℤ} (h10 : 0 ≤ o1) (h17 : o1 ≤ 34374)
    (h20 : 0 ≤ o2) (h27 : o2 ≤ 34374) (hne : o1 ≠ o2) :
    _hash_grid_point_fnv x y o1 ≠ _hash_grid_point_fnv x y o2 := by
  rw [fnv_as_tail, fnv_as_tail]
  have hA : (toBytesLE4 (((y + 0x9E3779B9) % 4294967296).toNat)).foldl fnvStep
      ((toBytesLE4 (((x + 0x9E3779B9) % 4294967296).toNat)).foldl fnvStep
        0x811C9DC5) < 4294967296 :=
    foldl_fnvStep_lt _ (foldl_fnvStep_lt _ (by norm_num))
  exact foldl_fnvStep_low16_ne (by omega) (by omega) (by omega) (by omega) hA

theorem _hash_int_lt (n : ℤ) : _hash_int n < 4294967296 :=
  Nat.mod_lt _ (by norm_num)

/-- The `boost::hash_combine` step is injective in the incoming hash (for a
fixed accumulator), on 32-bit values. -/
theorem _hash_combine_right_inj {a t1 t2 : ℕ} (h1 : t1 < 4294967296)
    (h2 : t2 < 4294967296) (h : _hash_combine a t1 = _hash_combine a t2) :
    t1 = t2 := by
  unfold _hash_combine at h
  have h' := congrArg (fun z => a ^^^ z) h
  simp only [Nat.xor_cancel_left] at h'
  generalize hs1 : (a <<< 6) % 4294967296 = s1 at h'
  generalize hs2 : a >>> 2 = s2 at h'
  omega

/-- The MD5-based variant decorrelates whenever the 32-bit MD5 reductions of
the two octaves differ: the combine step never collides them. -/
theorem md5_octave_ne_of_hash_ne (x y : ℤ) {o1 o2 : ℤ}
    (h : _hash_int o1 ≠ _hash_int o2) :
    _hash_grid_point_md5 x y o1 ≠ _hash_grid_point_md5 x y o2 := by
  intro heq
  exact h (_hash_combine_right_inj (_hash_int_lt o1) (_hash_int_lt o2) heq)

set_option maxRecDepth 100000 in
/-- The 32-bit MD5 reductions of the octave indices `0 … 10` are pairwise
distinct (by computation). -/
theorem hash_int_small_pairwise :
    ∀ a : ℕ, a < 11 → ∀ b : ℕ, b < 11 → a ≠ b →
      _hash_int (a : ℤ) ≠ _hash_int (b : ℤ) := by
  decide

/-- The MD5-based variant decorrelates distinct octaves in `[0, 10]` at every
grid coordinate. -/
theorem md5_octave_ne_small (x y : ℤ) {o1 o2 : ℤ} (h10 : 0 ≤ o1) (h17 : o1 ≤ 10)
    (h20 : 0 ≤ o2) (h27 : o2 ≤ 10) (hne : o1 ≠ o2) :
    _hash_grid_point_md5 x y o1 ≠ _hash_grid_point_md5 x y o2 := by
  apply md5_octave_ne_of_hash_ne
  have h1 : o1 = ((o1.toNat : ℕ) : ℤ) := by omega
  have h2 : o2 = ((o2.toNat : ℕ) : ℤ) := by omega
  rw [h1, h2]
  exact hash_int_small_pairwise o1.toNat (by omega) o2.toNat (by omega) (by omega)

/-- Octave indices congruent modulo `2^32` always collide under the FNV
variant. -/
theorem fnv_congr_mod (x y : ℤ) {o1 o2 : ℤ}
    (h : o1 % 4294967296 = o2 % 4294967296) :
    _hash_grid_point_fnv x y o1 = _hash_grid_point_fnv x y o2 := by
  rw [fnv_as_tail, fnv_as_tail]
  have hoff : (o1 + 0x9E3779B9) % 4294967296 = (o2 + 0x9E3779B9) % 4294967296 := by
    omega
  rw [hoff]

/-- Octave indices congruent modulo `2^32` always collide under the MD5-based
variant. -/
theorem md5_congr_mod (x y : ℤ) {o1 o2 : ℤ}
    (h : o1 % 4294967296 = o2 % 4294967296) :
    _hash_grid_point_md5 x y o1 = _hash_grid_point_md5 x y o2 := by
  have hint : _hash_int o1 = _hash_int o2 := by
    unfold _hash_int
    rw [h]
  rw [_hash_grid_point_md5, _hash_grid_point_md5, hint]

/-- Distinct 32-bit hashes give distinct `(cos θ, sin θ)` gradient vectors:
the angles lie in `[0, 2π)` and the angle map is injective there. -/
theorem gradient_pair_ne {h1 h2 : ℕ} (hh1 : h1 < 4294967296)
    (hh2 : h2 < 4294967296) (hne : h1 ≠ h2) :
    (Real.cos (angleOf h1), Real.sin (angleOf h1)) ≠
      (Real.cos (angleOf h2), Real.sin (angleOf h2)) := by
  intro heq
  rw [Prod.mk.injEq] at heq
  obtain ⟨hc, hs⟩ := heq
  have hp := Real.sin_sq_add_cos_sq (angleOf h2)
  have hcos1 : Real.cos (angleOf h1 - angleOf h2) = 1 := by
    rw [Real.cos_sub, hc, hs]
    linear_combination hp
  have hr : ∀ h : ℕ, h < 4294967296 → 0 ≤ angleOf h ∧ angleOf h < 2 * Real.pi := by
    intro h hh
    rw [angleOf_eq]
    refine ⟨by positivity, ?_⟩
    have hlt : (h : ℝ) / 4294967296 < 1 := by
      rw [div_lt_one (by norm_num)]
      exact_mod_cast hh
    nlinarith [Real.pi_pos]
  obtain ⟨ha1, ha2⟩ := hr h1 hh1
  obtain ⟨hb1, hb2⟩ := hr h2 hh2
  have hzero : angleOf h1 - angleOf h2 = 0 :=
    (Real.cos_eq_one_iff_of_lt_of_lt (by linarith) (by linarith)).mp hcos1
  have hcast : (h1 : ℝ) = (h2 : ℝ) := by
    rw [angleOf_eq, angleOf_eq] at hzero
    have hpi := Real.pi_pos
    have h2π : (2 : ℝ) * Real.pi ≠ 0 := by positivity
    have hdiv : (h1 : ℝ) / 4294967296 = (h2 : ℝ) / 4294967296 := by
      apply mul_left_cancel₀ h2π
      linarith
    have hM : (4294967296 : ℝ) ≠ 0 := by norm_num
    calc (h1 : ℝ) = (h1 : ℝ) / 4294967296 * 4294967296 := by field_simp
      _ = (h2 : ℝ) / 4294967296 * 4294967296 := by rw [hdiv]
      _ = (h2 : ℝ) := by field_simp
  exact hne (by exact_mod_cast hcast)

end hash

/-- The modelled `_core` gradient is octave-decorrelated for octaves in
`[0, 34374]`. -/
theorem core_gradient_octave_ne (x y : ℤ) {o1 o2 : ℤ} (h10 : 0 ≤ o1)
    (h17 : o1 ≤ 34374) (h20 : 0 ≤ o2) (h27 : o2 ≤ 34374) (hne : o1 ≠ o2) :
    core.core_gradient x y o1 ≠ core.core_gradient x y o2 := by
  simp only [core.core_gradient]
  exact hash.gradient_pair_ne (hash.hash_fnv_lt x y o1) (hash.hash_fnv_lt x y o2)
    (hash.fnv_octave_ne x y h10 h17 h20 h27 hne)

/-! ## `perlin/_render.py` — options validation and multi-octave rendering -/

namespace _render

/-- `perlin/_render.py:RenderOpts` (pydantic model): `num_cells`,
`resolution`, `num_octaves`, `origin`.  Only `resolution` carries a
validator. -/
structure RenderOpts where
  num_cells : ℤ
  resolution : ℤ
  num_octaves : ℤ
  origin : ℤ × ℤ

/-- `perlin/_render.py:_check_power_of_two`: `assert v > 0 and v & (v-1) == 0`.
A failed assertion surfaces as a pydantic `ValidationError`. -/
def _check_power_of_two (v : ℤ) : Except String ℤ :=
  if 0 < v ∧ v.toNat &&& (v.toNat - 1) = 0 then .ok v
  else .error "ValidationError: not a power of 2"

/-- Constructing validated `RenderOpts`: pydantic runs the power-of-two
validator on `resolution` and accepts the other fields as plain ints. -/
def mkRenderOpts (num_cells resolution num_octaves : ℤ) (origin : ℤ × ℤ) :
    Except String RenderOpts :=
  (_check_power_of_two resolution).map fun r =>
    ⟨num_cells, r, num_octaves, origin⟩

/-- The octave loop of `render`, per pixel: for each octave the image block
`[i·res, (i+1)·res) × [j·res, (j+1)·res)` accumulates
`amp · perlin_cell(origin + (i,j), octave, res)`; afterwards `num_cells`
doubles, `resolution` halves (floor division) and `amp` halves, and
`cum_amp` collects the amplitude of every octave, including those whose
resolution has reached `0` and which therefore paint nothing. -/
noncomputable def renderOctaves (origin : ℤ × ℤ) :
    ℕ → ℕ → ℤ → ℤ → ℝ → ((ℕ × ℕ) → ℝ) → ℝ → ((ℕ × ℕ) → ℝ) × ℝ
  | _, 0, _, _, _, image, cum_amp => (image, cum_amp)
  | octave, k + 1, num_cells, resolution, amp, image, cum_amp =>
    let image' : (ℕ × ℕ) → ℝ := fun p =>
      if 0 < resolution ∧ (p.1 : ℤ) / resolution < num_cells ∧
          (p.2 : ℤ) / resolution < num_cells then
        image p + amp * core.perlin_cell (origin.1 + (p.1 : ℤ) / resolution)
          (origin.2 + (p.2 : ℤ) / resolution) (octave : ℤ) resolution.toNat
          ((p.1 : ℤ) % resolution).toNat ((p.2 : ℤ) % resolution).toNat
      else image p
    renderOctaves origin (octave + 1) k (num_cells * 2) (resolution / 2) (amp / 2)
      image' (cum_amp + amp)

/-- `perlin/_render.py:render`: allocate the image (`np.zeros` raises
`ValueError` on negative dimensions), run `range(num_octaves)` octave passes
(an empty range for a non-positive octave count), then divide by the
cumulative amplitude. -/
noncomputable def render (opts : RenderOpts) : Except String ((ℕ × ℕ) → ℝ) :=
  if opts.num_cells * opts.resolution < 0 then
    .error "ValueError: negative dimensions are not allowed"
  else
    let r := renderOctaves opts.origin 0 opts.num_octaves.toNat opts.num_cells
      opts.resolution 1 (fun _ => 0) 0
    .ok fun p => r.1 p / r.2

/-- Invariants of the octave loop: amplitudes stay positive, the cumulative
amplitude never decreases (growing by the full first amplitude when at least
one octave runs), and every pixel stays bounded by the cumulative
amplitude. -/
theorem renderOctaves_bound (origin : ℤ × ℤ) :
    ∀ (k octave : ℕ) (num_cells resolution : ℤ) (amp : ℝ)
      (image : (ℕ × ℕ) → ℝ) (cum_amp : ℝ),
      0 < amp → (∀ p, |image p| ≤ cum_amp) →
      (∀ p, |(renderOctaves origin octave k num_cells resolution amp image cum_amp).1 p| ≤
        (renderOctaves origin octave k num_cells resolution amp image cum_amp).2) ∧
      cum_amp ≤ (renderOctaves origin octave k num_cells resolution amp image cum_amp).2 ∧
      (1 ≤ k → cum_amp + amp ≤
        (renderOctaves origin octave k num_cells resolution amp image cum_amp).2) := by
  intro k
  induction k with
  | zero =>
    intro octave nc res amp image cum hamp hinv
    exact ⟨hinv, le_refl _, by omega⟩
  | succ n ih =>
    intro octave nc res amp image cum hamp hinv
    rw [renderOctaves]
    have hinv' : ∀ p,
        |(fun p => if 0 < res ∧ (p.1 : ℤ) / res < nc ∧ (p.2 : ℤ) / res < nc then
            image p + amp * core.perlin_cell (origin.1 + (p.1 : ℤ) / res)
              (origin.2 + (p.2 : ℤ) / res) (octave : ℤ) res.toNat
              ((p.1 : ℤ) % res).toNat ((p.2 : ℤ) % res).toNat
          else image p) p| ≤ cum + amp := by
      intro p
      simp only []
      by_cases hc : 0 < res ∧ (p.1 : ℤ) / res < nc ∧ (p.2 : ℤ) / res < nc
      · rw [if_pos hc]
        have hres : 0 < res := hc.1
        have hmod1 : ((p.1 : ℤ) % res).toNat < res.toNat := by
          have := Int.emod_lt_of_pos (p.1 : ℤ) hres
          have h0 := Int.emod_nonneg (p.1 : ℤ) (ne_of_gt hres)
          omega
        have hmod2 : ((p.2 : ℤ) % res).toNat < res.toNat := by
          have := Int.emod_lt_of_pos (p.2 : ℤ) hres
          have h0 := Int.emod_nonneg (p.2 : ℤ) (ne_of_gt hres)
          omega
        have hcell := core.abs_perlin_cell_le_one (origin.1 + (p.1 : ℤ) / res)
          (origin.2 + (p.2 : ℤ) / res) (octave : ℤ) hmod1 hmod2
        calc |image p + amp * core.perlin_cell (origin.1 + (p.1 : ℤ) / res)
              (origin.2 + (p.2 : ℤ) / res) (octave : ℤ) res.toNat
              ((p.1 : ℤ) % res).toNat ((p.2 : ℤ) % res).toNat| ≤
            |image p| + |amp * core.perlin_cell (origin.1 + (p.1 : ℤ) / res)
              (origin.2 + (p.2 : ℤ) / res) (octave : ℤ) res.toNat
              ((p.1 : ℤ) % res).toNat ((p.2 : ℤ) % res).toNat| := abs_add _ _
          _ ≤ cum + amp := by
              have : |amp * core.perlin_cell (origin.1 + (p.1 : ℤ) / res)
                  (origin.2 + (p.2 : ℤ) / res) (octave : ℤ) res.toNat
                  ((p.1 : ℤ) % res).toNat ((p.2 : ℤ) % res).toNat| ≤ amp := by
                rw [abs_mul, abs_of_pos hamp]
                nlinarith [hcell, abs_nonneg (core.perlin_cell (origin.1 + (p.1 : ℤ) / res)
                  (origin.2 + (p.2 : ℤ) / res) (octave : ℤ) res.toNat
                  ((p.1 : ℤ) % res).toNat ((p.2 : ℤ) % res).toNat)]
              have him := hinv p
              linarith
      · rw [if_neg hc]
        have := hinv p
        linarith
    obtain ⟨hA, hB, _⟩ := ih (octave + 1) (nc * 2) (res / 2) (amp / 2) _ (cum + amp)
      (by linarith) hinv'
    exact ⟨hA, by linarith, fun _ => hB⟩

/-- Every pixel of a successful render with at least one octave lies in
`[-1, 1]`. -/
theorem render_pixel_bound {opts : RenderOpts} (hoct : 1 ≤ opts.num_octaves)
    {f : (ℕ × ℕ) → ℝ} (hf : render opts = .ok f) (p : ℕ × ℕ) : |f p| ≤ 1 := by
  rw [render] at hf
  by_cases hneg : opts.num_cells * opts.resolution < 0
  · rw [if_pos hneg] at hf
    exact absurd hf (by simp)
  · rw [if_neg hneg] at hf
    have hk : 1 ≤ opts.num_octaves.toNat := by omega
    obtain ⟨hA, _, hC⟩ := renderOctaves_bound opts.origin opts.num_octaves.toNat 0
      opts.num_cells opts.resolution 1 (fun _ => 0) 0 (by norm_num)
      (by intro p; simp)
    have hcum : 1 ≤ (renderOctaves opts.origin 0 opts.num_octaves.toNat
        opts.num_cells opts.resolution 1 (fun _ => 0) 0).2 := by
      have := hC hk
      linarith
    have hf' : f = fun p => (renderOctaves opts.origin 0 opts.num_octaves.toNat
        opts.num_cells opts.resolution 1 (fun _ => 0) 0).1 p /
        (renderOctaves opts.origin 0 opts.num_octaves.toNat
        opts.num_cells opts.resolution 1 (fun _ => 0) 0).2 := by
      injection hf with h
      exact h.symm
    rw [hf']
    rw [abs_div]
    rw [div_le_one (by rw [abs_of_pos (by linarith)]; linarith)]
    rw [abs_of_pos (by linarith : (0:ℝ) < (renderOctaves opts.origin 0
      opts.num_octaves.toNat opts.num_cells opts.resolution 1 (fun _ => 0) 0).2)]
    exact hA p

end _render

/-! ## Claims -/

/-- All pixels of a successfully rendered image are bounded by `1` in
absolute value. -/
def boundedPixels (e : Except String ((ℕ × ℕ) → ℝ)) : Prop :=
  ∀ f, e = .ok f → ∀ p, |f p| ≤ 1

/-- C1: the spec requires the cell origin `x0 = floor(x)` (truncation toward
negative infinity); the code computes `int(x)`, truncation toward zero, so at
`x = -1/2` it uses origin `0` — the lattice point above — while `floor`
gives `-1`. -/
theorem C1_trunc_toward_zero_bug :
    core.pyTrunc (-1/2 : ℚ) = 0 ∧ ⌊(-1/2 : ℚ)⌋ = -1 ∧
      core.pyTrunc (-1/2 : ℚ) ≠ ⌊(-1/2 : ℚ)⌋ := by
  have h1 : core.pyTrunc (-1/2 : ℚ) = 0 := by
    rw [core.pyTrunc, if_pos (by norm_num), Int.ceil_eq_iff]
    push_cast
    norm_num
  have h2 : ⌊(-1/2 : ℚ)⌋ = -1 := by
    rw [Int.floor_eq_iff]
    push_cast
    norm_num
  exact ⟨h1, h2, by rw [h1, h2]; decide⟩

/-- C2 (amended): for every cell at non-negative grid coordinates, element
`(i, j)` of the vectorized `perlin_cell` equals the scalar `perlin` at the
corresponding fractional coordinate `(grid_x + i/res, grid_y + j/res)`, in
exact arithmetic; at negative grid coordinates the scalar path truncates
toward zero and the equivalence fails. -/
theorem C2_cell_scalar_equiv (grid_x grid_y octave : ℤ) (resolution i j : ℕ)
    (hgx : 0 ≤ grid_x) (hgy : 0 ≤ grid_y) (hi : i < resolution)
    (hj : j < resolution) :
    core.perlin_cell grid_x grid_y octave resolution i j =
      core.perlin ((grid_x : ℚ) + (i : ℚ) / (resolution : ℚ))
        ((grid_y : ℚ) + (j : ℚ) / (resolution : ℚ)) octave :=
  core.cell_scalar_equiv hgx hgy octave hi hj

/-- Witness for C2 at cell `(0, 0)`, octave `0`, resolution `1`. -/
theorem C2_cell_scalar_equiv_witness :
    (0 : ℤ) ≤ 0 ∧ (0 : ℕ) < 1 ∧
      core.perlin_cell 0 0 0 1 0 0 =
        core.perlin (((0 : ℤ) : ℚ) + ((0 : ℕ) : ℚ) / ((1 : ℕ) : ℚ))
          (((0 : ℤ) : ℚ) + ((0 : ℕ) : ℚ) / ((1 : ℕ) : ℚ)) 0 :=
  ⟨le_refl _, Nat.zero_lt_one,
    C2_cell_scalar_equiv 0 0 0 1 0 0 (by norm_num) (by norm_num)
      (by norm_num) (by norm_num)⟩

/-- Counterexample to C2 as stated: element `(1, 0)` of the cell at
`(-1, 0)` with resolution 16 differs from the scalar evaluator at the
corresponding coordinate `(-15/16, 0)` — the cell value lies in `[-1, 1]`
while the scalar path, truncating `-15/16` to `0`, extrapolates beyond `2`. -/
theorem C2_cell_scalar_counterexample :
    core.perlin_cell (-1) 0 0 16 1 0 ≠ core.perlin (-15/16 : ℚ) 0 0 := by
  intro heq
  have hcell := core.abs_perlin_cell_le_one (-1) 0 0
    (show (1 : ℕ) < 16 by norm_num) (show (0 : ℕ) < 16 by norm_num)
  rw [heq] at hcell
  have h1 := perlin_neg1516_gt_one
  have h2 : core.perlin (-15/16 : ℚ) 0 0 ≤ 1 := (abs_le.mp hcell).2
  linarith

/-- C3 (amended): the range bound `[-1, 1]` holds for the scalar evaluator at
all non-negative coordinates, for every element of every vectorized cell, and
for every pixel of a successful multi-octave render with octave count ≥ 1; at
negative non-integer coordinates the scalar evaluator can leave `[-1, 1]`. -/
theorem C3_range_bound :
    (∀ x y : ℚ, 0 ≤ x → 0 ≤ y → ∀ octave : ℤ, |core.perlin x y octave| ≤ 1) ∧
    (∀ (grid_x grid_y octave : ℤ) (resolution i j : ℕ), i < resolution →
      j < resolution →
      |core.perlin_cell grid_x grid_y octave resolution i j| ≤ 1) ∧
    (∀ opts : _render.RenderOpts, 1 ≤ opts.num_octaves →
      boundedPixels (_render.render opts)) :=
  ⟨fun _ _ hx hy octave => core.abs_perlin_le_one hx hy octave,
   fun _ _ _ _ _ _ hi hj => core.abs_perlin_cell_le_one _ _ _ hi hj,
   fun _ hoct _f hf p => _render.render_pixel_bound hoct hf p⟩

/-- Witness for C3 at the origin sample, the unit cell, and a one-octave
render. -/
theorem C3_range_bound_witness :
    (0 : ℚ) ≤ 0 ∧ |core.perlin 0 0 0| ≤ 1 ∧
      (0 : ℕ) < 1 ∧ |core.perlin_cell 0 0 0 1 0 0| ≤ 1 ∧
      (1 : ℤ) ≤ 1 ∧ boundedPixels (_render.render ⟨1, 1, 1, (0, 0)⟩) :=
  ⟨le_refl _, C3_range_bound.1 0 0 (le_refl _) (le_refl _) 0,
   Nat.zero_lt_one, C3_range_bound.2.1 0 0 0 1 0 0 Nat.zero_lt_one Nat.zero_lt_one,
   le_refl _, C3_range_bound.2.2 ⟨1, 1, 1, (0, 0)⟩ (le_refl _)⟩

/-- Counterexample to C3 as stated: the single-octave scalar value at the
negative sample `(-7/8, 0)` exceeds `1`. -/
theorem C3_range_counterexample : 1 < core.perlin (-7/8 : ℚ) 0 0 := by
  rw [perlin_neg78_eq, hash.fnv_values.1, hash.fnv_values.2]
  have hc1ub : Real.cos (hash.angleOf 4266210486) ≤ 1 := Real.cos_le_one _
  have hc2lb := cos_angle_fnv10_lb
  have hE : (1.6 : ℝ) ≤
      (4563615 / 131072) * Real.cos (hash.angleOf 656741321) -
        (2244375 / 131072) * Real.cos (hash.angleOf 4266210486) := by
    nlinarith [hc1ub, hc2lb]
  nlinarith [sqrt_two_ge, hE, Real.sqrt_nonneg 2]

/-- C4: the implemented FNV-1a hash coincides with the reference definition
stated by the specification (offset, 32-bit two's-complement reduction,
little-endian serialization, offset-basis/prime byte fold), and its result is
below `2^32`. -/
theorem C4_fnv_reference (x y octave : ℤ) :
    hash._hash_grid_point_fnv x y octave = fnvReference x y octave ∧
      hash._hash_grid_point_fnv x y octave < 2 ^ 32 := by
  constructor
  · simp [hash._hash_grid_point_fnv, fnvReference, fnvAbsorb, toBytesLE4, specByte,
      hash.fnvStep, List.foldl_append, pow_succ, pow_zero, Nat.div_one, one_mul]
  · have h := hash.hash_fnv_lt x y octave
    norm_num
    exact h

/-- C5 (amended): a non-power-of-two resolution is rejected while building
`RenderOpts`, and an unrecognized hash variant raises `NotImplementedError`
(at the first gradient evaluation); but negative octave counts are accepted
by the options model and `render` returns an image for them (the octave loop
is empty and the final division is by the zero cumulative amplitude) instead
of raising a configuration fault; and negative cell counts likewise pass
validation and surface only inside `render` as the generic `ValueError` of
the negative-dimension array allocation. -/
theorem C5_config_validation :
    (∀ (num_cells resolution num_octaves : ℤ) (origin : ℤ × ℤ),
      ¬(0 < resolution ∧ resolution.toNat &&& (resolution.toNat - 1) = 0) →
      (_render.mkRenderOpts num_cells resolution num_octaves origin).isOk = false) ∧
    (∀ (variant : String) (x y octave : ℤ), variant ≠ "FNV" → variant ≠ "MD5" →
      hash.get_gradient_vector variant x y octave =
        .error ("Hashing not implemented: " ++ variant)) ∧
    (∀ num_octaves : ℤ, num_octaves < 0 →
      (_render.mkRenderOpts 8 64 num_octaves (0, 0)).isOk = true ∧
      (_render.render ⟨8, 64, num_octaves, (0, 0)⟩).isOk = true) ∧
    (∀ (num_cells resolution num_octaves : ℤ) (origin : ℤ × ℤ),
      num_cells < 0 → 0 < resolution →
      (_render.mkRenderOpts num_cells 64 num_octaves origin).isOk = true ∧
      _render.render ⟨num_cells, resolution, num_octaves, origin⟩ =
        .error "ValueError: negative dimensions are not allowed") := by
  refine ⟨?_, ?_, ?_, ?_⟩
  · intro nc res noct origin h
    rw [_render.mkRenderOpts, _render._check_power_of_two, if_neg h]
    rfl
  · intro v x y o h1 h2
    simp [hash.get_gradient_vector, h1, h2]
  · intro noct _
    constructor
    · rw [_render.mkRenderOpts, _render._check_power_of_two, if_pos (by decide)]
      rfl
    · rw [_render.render, if_neg (by norm_num)]
      rfl
  · intro nc res noct origin hnc hres
    constructor
    · rw [_render.mkRenderOpts, _render._check_power_of_two, if_pos (by decide)]
      rfl
    · rw [_render.render, if_pos (mul_neg_of_neg_of_pos hnc hres)]

/-- Witness for C5: resolution 3 is rejected, variant `"SHA1"` errors, a
render with octave count `-2` still returns an image, and cell count `-3`
passes validation but aborts inside `render` with the allocation
`ValueError`. -/
theorem C5_config_validation_witness :
    (_render.mkRenderOpts 8 3 1 (0, 0)).isOk = false ∧
      hash.get_gradient_vector "SHA1" 0 0 0 =
        .error ("Hashing not implemented: " ++ "SHA1") ∧
      ((_render.mkRenderOpts 8 64 (-2) (0, 0)).isOk = true ∧
        (_render.render ⟨8, 64, -2, (0, 0)⟩).isOk = true) ∧
      ((_render.mkRenderOpts (-3) 64 1 (0, 0)).isOk = true ∧
        _render.render ⟨-3, 64, 1, (0, 0)⟩ =
          .error "ValueError: negative dimensions are not allowed") :=
  ⟨C5_config_validation.1 8 3 1 (0, 0) (by decide),
   C5_config_validation.2.1 "SHA1" 0 0 0 (by decide) (by decide),
   C5_config_validation.2.2.1 (-2) (by norm_num),
   C5_config_validation.2.2.2 (-3) 64 1 (0, 0) (by norm_num) (by norm_num)⟩

/-- Counterexample to C5 as stated: a negative octave count (`-1`) passes
options validation and `render` returns an array rather than raising a
configuration fault. -/
theorem C5_negative_octaves_counterexample :
    (_render.mkRenderOpts 8 64 (-1) (0, 0)).isOk = true ∧
      (_render.render ⟨8, 64, -1, (0, 0)⟩).isOk = true := by
  constructor
  · rw [_render.mkRenderOpts, _render._check_power_of_two, if_pos (by decide)]
    rfl
  · rw [_render.render, if_neg (by norm_num)]
    rfl

/-- C6 (amended): the FNV-1a hash — and hence the gradient vector — differs
at every grid coordinate for distinct octave indices in `[0, 34374]` (the
range in which the offset serializations keep their upper two bytes fixed,
covering every octave count a power-of-two resolution admits); the MD5-based
variant's hash differs whenever the 32-bit MD5 reductions of the two octaves
differ (the combine step is injective), and in particular for all distinct
octaves in `[0, 10]`; octave indices congruent modulo `2^32` always collide,
under both variants. -/
theorem C6_octave_decorrelation :
    (∀ (x y o1 o2 : ℤ), 0 ≤ o1 → o1 ≤ 34374 → 0 ≤ o2 → o2 ≤ 34374 → o1 ≠ o2 →
      hash._hash_grid_point_fnv x y o1 ≠ hash._hash_grid_point_fnv x y o2 ∧
      core.core_gradient x y o1 ≠ core.core_gradient x y o2) ∧
    (∀ (x y o1 o2 : ℤ), hash._hash_int o1 ≠ hash._hash_int o2 →
      hash._hash_grid_point_md5 x y o1 ≠ hash._hash_grid_point_md5 x y o2) ∧
    (∀ (x y o1 o2 : ℤ), 0 ≤ o1 → o1 ≤ 10 → 0 ≤ o2 → o2 ≤ 10 → o1 ≠ o2 →
      hash._hash_grid_point_md5 x y o1 ≠ hash._hash_grid_point_md5 x y o2) ∧
    (∀ (x y o1 o2 : ℤ), o1 % 4294967296 = o2 % 4294967296 →
      hash._hash_grid_point_fnv x y o1 = hash._hash_grid_point_fnv x y o2 ∧
      hash._hash_grid_point_md5 x y o1 = hash._hash_grid_point_md5 x y o2) := by
  refine ⟨?_, ?_, ?_, ?_⟩
  · intro x y o1 o2 h10 h17 h20 h27 hne
    exact ⟨hash.fnv_octave_ne x y h10 h17 h20 h27 hne,
      core_gradient_octave_ne x y h10 h17 h20 h27 hne⟩
  · intro x y o1 o2 h
    exact hash.md5_octave_ne_of_hash_ne x y h
  · intro x y o1 o2 h10 h17 h20 h27 hne
    exact hash.md5_octave_ne_small x y h10 h17 h20 h27 hne
  · intro x y o1 o2 h
    exact ⟨hash.fnv_congr_mod x y h, hash.md5_congr_mod x y h⟩

set_option maxRecDepth 100000 in
/-- Witness for C6 at `(0, 0)`: octaves `0` and `1` decorrelate under both
variants, and octaves `0` and `2^32` collide. -/
theorem C6_octave_decorrelation_witness :
    (0 : ℤ) ≠ 1 ∧
      (hash._hash_grid_point_fnv 0 0 0 ≠ hash._hash_grid_point_fnv 0 0 1 ∧
        core.core_gradient 0 0 0 ≠ core.core_gradient 0 0 1) ∧
      hash._hash_int 0 ≠ hash._hash_int 1 ∧
      hash._hash_grid_point_md5 0 0 0 ≠ hash._hash_grid_point_md5 0 0 1 ∧
      ((0 : ℤ) % 4294967296 = (4294967296 : ℤ) % 4294967296 ∧
        hash._hash_grid_point_fnv 0 0 0 = hash._hash_grid_point_fnv 0 0 4294967296) :=
  ⟨by decide,
   C6_octave_decorrelation.1 0 0 0 1 (by norm_num) (by norm_num) (by norm_num)
     (by norm_num) (by norm_num),
   by decide,
   C6_octave_decorrelation.2.2.1 0 0 0 1 (by norm_num) (by norm_num) (by norm_num)
     (by norm_num) (by norm_num),
   by decide,
   (C6_octave_decorrelation.2.2.2 0 0 0 4294967296 (by decide)).1⟩

/-- Counterexample to C6 as stated: the distinct octave indices `0` and
`2^32` produce identical hashes at `(0, 0)` under both variants, because
each input is reduced to 32 bits before hashing. -/
theorem C6_octave_collision :
    hash._hash_grid_point_fnv 0 0 0 = hash._hash_grid_point_fnv 0 0 4294967296 ∧
      hash._hash_grid_point_md5 0 0 0 = hash._hash_grid_point_md5 0 0 4294967296 ∧
      (0 : ℤ) ≠ 4294967296 := by
  refine ⟨by decide, ?_, by decide⟩
  have h : hash._hash_int 4294967296 = hash._hash_int 0 := by
    unfold hash._hash_int
    norm_num
  rw [hash._hash_grid_point_md5, hash._hash_grid_point_md5, h]

/-- C7: for both variants the gradient generator maps the 32-bit hash `h` to
the angle `θ = 2π·h/2^32` and returns exactly `(cos θ, sin θ)`; every
returned vector has unit squared length — no normalization step is
applied. -/
theorem C7_gradient_form :
    (∀ x y octave : ℤ,
      hash.get_gradient_vector "FNV" x y octave =
        .ok (Real.cos (hash.angleOf (hash._hash_grid_point_fnv x y octave)),
             Real.sin (hash.angleOf (hash._hash_grid_point_fnv x y octave))) ∧
      hash.get_gradient_vector "MD5" x y octave =
        .ok (Real.cos (hash.angleOf (hash._hash_grid_point_md5 x y octave)),
             Real.sin (hash.angleOf (hash._hash_grid_point_md5 x y octave))) ∧
      hash.angleOf (hash._hash_grid_point_fnv x y octave) =
        2 * Real.pi * (hash._hash_grid_point_fnv x y octave : ℝ) / 2 ^ 32) ∧
    (∀ (variant : String) (x y octave : ℤ) (g : ℝ × ℝ),
      hash.get_gradient_vector variant x y octave = .ok g →
        g.1 ^ 2 + g.2 ^ 2 = 1) := by
  constructor
  · intro x y octave
    refine ⟨rfl, rfl, ?_⟩
    rw [angleOf_eq]
    norm_num
    ring
  · intro variant x y octave g hg
    rw [hash.get_gradient_vector] at hg
    split_ifs at hg <;> simp only [Except.ok.injEq] at hg
    · rw [← hg]
      exact Real.cos_sq_add_sin_sq _
    · rw [← hg]
      exact Real.cos_sq_add_sin_sq _

/-- Witness for C7: the FNV gradient at the origin has the cosine/sine form
and unit squared length. -/
theorem C7_gradient_form_witness :
    hash.get_gradient_vector "FNV" 0 0 0 =
      .ok (Real.cos (hash.angleOf (hash._hash_grid_point_fnv 0 0 0)),
           Real.sin (hash.angleOf (hash._hash_grid_point_fnv 0 0 0))) ∧
      (Real.cos (hash.angleOf (hash._hash_grid_point_fnv 0 0 0))) ^ 2 +
        (Real.sin (hash.angleOf (hash._hash_grid_point_fnv 0 0 0))) ^ 2 = 1 :=
  ⟨(C7_gradient_form.1 0 0 0).1,
   C7_gradient_form.2 "FNV" 0 0 0 _ (C7_gradient_form.1 0 0 0).1⟩

/-- C8: at every integer lattice point the single-octave scalar evaluator
returns exactly `0`: the weights `t_x = t_y = 0` select the bottom-left
corner, whose displacement — and hence dot product — is zero. -/
theorem C8_lattice_zero (m n octave : ℤ) :
    core.perlin (m : ℚ) (n : ℚ) octave = 0 := by
  simp only [core.perlin, core._grid_dot_product, core._interpolate,
    core.pyTrunc_intCast]
  push_cast
  ring

/-- C9: in the `src/` variant every call to `perlin` (and to `perlin_cell`)
raises `TypeError` before producing any value, because `_grid_dot_product`
and `perlin_cell` pass only two arguments to `get_gradient_vector`, whose
signature requires a third `octave` argument with no default. -/
theorem C9_src_variant_type_error :
    (∀ (variant : String) (x y : ℚ),
      src.perlin variant x y = .error src.arityErrorMsg) ∧
    (∀ (variant : String) (grid_x grid_y : ℤ) (resolution i j : ℕ),
      src.perlin_cell variant grid_x grid_y resolution i j =
        .error src.arityErrorMsg) :=
  ⟨fun _ _ _ => rfl, fun _ _ _ _ _ _ => rfl⟩

theorem pyTrunc_neg32_lt_zero : core.pyTrunc (-3/2 : ℚ) < 0 := by
  have h : core.pyTrunc (-3/2 : ℚ) = -1 := by
    rw [core.pyTrunc, if_pos (by norm_num), Int.ceil_eq_iff]
    push_cast
    norm_num
  rw [h]
  decide

/-- C10: the top-level variant's `_hash_int` serializes with
`int.to_bytes(n)` (default length 1, big-endian), so it raises
`OverflowError` for every `n < 0` or `n > 255`; consequently `perlin(x, y)`
fails whenever any of the four cell-corner coordinates is negative or
exceeds 255. -/
theorem C10_to_bytes_overflow :
    (∀ n : ℤ, n < 0 ∨ 255 < n → top._hash_int n = none) ∧
    (∀ x y : ℚ, (core.pyTrunc x < 0 ∨ 255 < core.pyTrunc x + 1 ∨
        core.pyTrunc y < 0 ∨ 255 < core.pyTrunc y + 1) →
      top.perlin x y = none) :=
  ⟨fun _ h => top.hash_int_none h, fun _ _ h => top.perlin_overflow h⟩

/-- Witness for C10: `_hash_int (-1)` overflows, and the sample `(-3/2, 1/2)`
— whose truncated corner `-1` is negative — makes `perlin` fail. -/
theorem C10_to_bytes_overflow_witness :
    ((-1 : ℤ) < 0 ∨ 255 < (-1 : ℤ)) ∧ top._hash_int (-1) = none ∧
      (core.pyTrunc (-3/2 : ℚ) < 0 ∨ 255 < core.pyTrunc (-3/2 : ℚ) + 1 ∨
        core.pyTrunc (1/2 : ℚ) < 0 ∨ 255 < core.pyTrunc (1/2 : ℚ) + 1) ∧
      top.perlin (-3/2 : ℚ) (1/2 : ℚ) = none :=
  ⟨Or.inl (by norm_num),
   C10_to_bytes_overflow.1 (-1) (Or.inl (by norm_num)),
   Or.inl pyTrunc_neg32_lt_zero,
   C10_to_bytes_overflow.2 (-3/2) (1/2) (Or.inl pyTrunc_neg32_lt_zero)⟩

end PerlinSpec
